import Mathlib

/-!
# lsd: a directory-tree printer

A shallow embedding of `src/main.cpp` and the properties of its extension
classifier, size formatter, tree walker and argument parser.

Modelling conventions.

* `std::string` is `String`; `std::ostringstream` accumulation is string
  concatenation; `std::endl` is the newline character.
* The file system is an explicit finite tree (`Node`).  A directory holds its
  entries as (file name, node) pairs in the order `fs::directory_iterator`
  yields them.
* `uintmax_t` byte counts are natural numbers.  The `double` quotients
  `size / 1024.0^k` are modelled exactly: the conversion of the byte count to
  `double` rounds to 53 significant bits (ties to even), the division by a
  power of two is exact, and `std::fixed << std::setprecision(2)` prints the
  exact value rounded to two decimals (ties to even, as the C library does).
* `exit` and the two output streams are explicit in the result of the parser
  and of `main`.
* Paths are POSIX path texts with `/` as separator.  Every directory of the
  tree can be read: a failing `fs::directory_iterator` (an exception that
  nothing catches) is outside the model.
* Calls at the start and end of a run that can fail are explicit in
  `Environment` and `mainExc`: `fs::current_path()` and `fs::exists` on the
  root path can throw, and the clipboard pipe can raise `SIGPIPE`.
-/

namespace Lsd

/-! ## File system model -/

/-- What a path resolves to.  `missing`: nothing exists there (also a dangling
link); `file size`: something that is not a directory, whose size query
`fs::file_size` yields `size` (`none` when the query throws); `dir entries`: a
directory with its entries in iteration order. -/
inductive Node where
  | missing : Node
  | file (size : Option Nat) : Node
  | dir (entries : List (String × Node)) : Node

/-- Embeds `fs::exists` for a path whose status query has succeeded (for a
query that fails and makes the call throw, see `Status.fsExists`). -/
def Node.fsExists : Node → Bool
  | .missing => false
  | _ => true

/-- Embeds `fs::is_directory`. -/
def Node.is_directory : Node → Bool
  | .dir _ => true
  | _ => false

/-- Embeds `fs::file_size`: `none` stands for the thrown `filesystem_error`
(the path does not exist, is a directory, or cannot be queried). -/
def Node.file_size : Node → Option Nat
  | .file size => size
  | _ => none

/-! ## Paths -/

/-- What follows the last `/` of a path text (the whole text when there is no `/`). -/
def lastComponent : List Char → List Char
  | [] => []
  | c :: cs => if '/' ∈ cs then lastComponent cs else if c = '/' then cs else c :: cs

/-- Embeds `path::filename()`: the last component of the path, empty when the
path ends with `/`. -/
def filenameOf (path : String) : String :=
  String.mk (lastComponent path.data)

/-- Embeds `dirPath / filename`, the path of a directory entry. -/
def pathAppend (dirPath filename : String) : String :=
  if dirPath = "" ∨ dirPath.data.getLast? = some '/' then dirPath ++ filename
  else dirPath ++ "/" ++ filename

/-! ## isHidden -/

/-- Embeds `isHidden`: `path.filename().string().rfind(".", 0) == 0` holds
exactly when the file name of the path starts with a dot. -/
def isHidden (path : String) : Bool :=
  match (filenameOf path).data with
  | c :: _ => c == '.'
  | [] => false

/-! ## Extension classifier -/

/-- Position of the last `'.'` of a character sequence (`string::rfind('.')`). -/
def rfindDot : List Char → Option Nat
  | [] => none
  | c :: cs =>
    match rfindDot cs with
    | some i => some (i + 1)
    | none => if c = '.' then some 0 else none

/-- Embeds `path::extension()`: empty when the file name is `.` or `..`, has no
dot, or has its only dot as first character; otherwise the part of the file
name that starts at its last dot. -/
def extension (path : String) : String :=
  let filename := filenameOf path
  if filename = "." ∨ filename = ".." then ""
  else
    match rfindDot filename.data with
    | none => ""
    | some 0 => ""
    | some pos => String.mk (filename.data.drop pos)

/-- The static table `fileTypes` of `getFileType`. -/
def fileTypes : List (String × String) :=
  [(".py", "Python"), (".ts", "TypeScript"), (".js", "JavaScript"),
   (".cpp", "C++ Source File"), (".h", "C/C++ Header File"),
   (".txt", "Text File"), (".pdf", "PDF Document"),
   (".png", "PNG Image"), (".jpg", "JPEG Image"),
   (".mp3", "MP3 Audio"), (".mp4", "MP4 Video"),
   (".zip", "ZIP Archive"), (".tar", "TAR Archive"),
   (".gz", "GZIP Archive"), (".exe", "Executable"),
   (".sh", "Shell Script"), (".md", "Markdown Document"),
   (".json", "JSON File"), (".xml", "XML File"),
   (".html", "HTML Document"), (".css", "CSS Stylesheet"),
   (".scss", "SCSS Stylesheet"), (".less", "LESS Stylesheet"),
   (".java", "Java Source File"), (".class", "Java Class File"),
   (".jar", "Java Archive"), (".rb", "Ruby Script"),
   (".php", "PHP Script"), (".sql", "SQL Script"),
   (".c", "C Source File"), (".cs", "C# Source File"),
   (".swift", "Swift Source File"), (".kt", "Kotlin Source File"),
   (".go", "Go Source File"), (".rs", "Rust Source File"),
   (".lua", "Lua Script"), (".pl", "Perl Script"),
   (".r", "R Script"), (".m", "MATLAB Script"),
   (".jl", "Julia Script"), (".ipynb", "Jupyter Notebook"),
   (".yml", "YAML File"), (".toml", "TOML File"),
   (".ini", "INI File"), (".conf", "Configuration File"),
   (".log", "Log File"), (".csv", "CSV File"),
   (".tsv", "TSV File"), (".xls", "Excel File"),
   (".xlsx", "Excel File"), (".doc", "Word Document"),
   (".docx", "Word Document"), (".ppt", "PowerPoint Document"),
   (".pptx", "PowerPoint Document"), (".key", "Keynote Document"),
   (".pages", "Pages Document"), (".numbers", "Numbers Document"),
   (".svg", "SVG Image"), (".gif", "GIF Image")]

/-- Embeds `unordered_map::count`: 1 when the key is present, else 0. -/
def mapCount (table : List (String × String)) (key : String) : Nat :=
  if table.any (fun kv => kv.1 == key) then 1 else 0

/-- Embeds `unordered_map::at`: the mapped value, `none` for the thrown
`std::out_of_range`. -/
def mapAt (table : List (String × String)) (key : String) : Option String :=
  (table.find? (fun kv => kv.1 == key)).map Prod.snd

/-- Embeds `getFileType`, with the exception channel explicit: `none` would be
an exception leaving the function. -/
def getFileTypeExc (path : String) : Option String :=
  let ext := extension path
  if mapCount fileTypes ext ≠ 0 then mapAt fileTypes ext
  else some "Unknown File Type"

/-- The label `getFileType` returns (see `getFileTypeExc_eq_some`: the
exception channel is never taken). -/
def getFileType (path : String) : String :=
  match getFileTypeExc path with
  | some label => label
  | none => ""

/-! ## Size formatter -/

/-- Nearest integer to `num / den`, ties to the even integer. -/
def roundHalfEven (num den : Nat) : Nat :=
  let q := num / den
  let r := num % den
  if 2 * r < den then q
  else if den < 2 * r then q + 1
  else if q % 2 = 0 then q else q + 1

/-- Number of binary digits of `n`, by recursion on `fuel`. -/
def bitLength : Nat → Nat → Nat
  | 0, _ => 0
  | fuel + 1, n => if n = 0 then 0 else bitLength fuel (n / 2) + 1

/-- Conversion of an unsigned integer to `double`: exact below `2^53`,
otherwise rounded to 53 significant bits, ties to even.  The result is the
value of the double, which is an integer. -/
def toDouble (n : Nat) : Nat :=
  if n < 2 ^ 53 then n
  else
    let e := bitLength n n - 53
    roundHalfEven n (2 ^ e) * 2 ^ e

/-- Two decimal digits of `k < 100`. -/
def twoDigits (k : Nat) : String :=
  String.mk [Nat.digitChar (k / 10), Nat.digitChar (k % 10)]

/-- Hundredths shown for the value `num / den` under
`std::fixed << std::setprecision(2)`. -/
def hundredths (num den : Nat) : Nat :=
  roundHalfEven (100 * num) den

/-- Embeds `oss << std::fixed << std::setprecision(2) << (num / den)` for a
double whose exact value is `num / den`. -/
def fixed2 (num den : Nat) : String :=
  let m := hundredths num den
  toString (m / 100) ++ "." ++ twoDigits (m % 100)

/-- Embeds `getFileSize`, on the node the path resolves to. -/
def getFileSize (node : Node) : String :=
  match node.file_size with
  | none => "Unknown Size"
  | some size =>
    if size < 1024 then toString size ++ " B"
    else if size < 1024 * 1024 then fixed2 (toDouble size) 1024 ++ " KB"
    else if size < 1024 * 1024 * 1024 then fixed2 (toDouble size) (1024 * 1024) ++ " MB"
    else fixed2 (toDouble size) (1024 * 1024 * 1024) ++ " GB"

/-! ## Tree walker -/

/-- Embeds `std::quoted`, which `operator<<` applies to a `fs::path`: the text
between double quotes, with a backslash before each double quote and backslash. -/
def quoted (s : String) : String :=
  String.mk ('"' :: (s.data.flatMap fun c => if c = '"' ∨ c = '\\' then ['\\', c] else [c]) ++ ['"'])

/-- Embeds `std::string(level, '\t')`. -/
def tabs (level : Nat) : String :=
  String.mk (List.replicate level '\t')

/-- The text the loop body of `getFolderStructure` writes for one entry before
it recurses: indentation, file name, the verbose annotation, `std::endl`. -/
def entryLine (level : Nat) (verbose : Bool) (filename : String) (node : Node) : String :=
  tabs level ++ filename
    ++ (if verbose then
          " [" ++ (if node.is_directory then "Directory"
                   else getFileType filename ++ ", " ++ getFileSize node) ++ "]"
        else "")
    ++ "\n"

mutual
/-- Embeds `getFolderStructure`.  `node` is what `dirPath` resolves to, so the
guard `!fs::exists(dirPath) || !fs::is_directory(dirPath)` fails exactly for a
`dir` node (`invalid_guard_iff`); `level` counts up from 0 and `maxDepth` is
the `int` of the source.  An entry is given by its file name, which is the
`filename()` of the entry path `dirPath / filename` that the source hands to
`isHidden` and `getFileType` (`isHidden_pathAppend`, `getFileType_pathAppend`). -/
def getFolderStructure (dirPath : String) (node : Node) (level : Nat) (maxDepth : Int)
    (showHidden verbose : Bool) : String :=
  match node with
  | .dir entries => walkEntries dirPath entries level maxDepth showHidden verbose
  | _ => "Invalid directory path: " ++ quoted dirPath ++ "\n"
/-- The `for` loop of `getFolderStructure` over the entries of `dirPath`. -/
def walkEntries (dirPath : String) (entries : List (String × Node)) (level : Nat)
    (maxDepth : Int) (showHidden verbose : Bool) : String :=
  match entries with
  | [] => ""
  | (filename, child) :: rest =>
    (if !showHidden && isHidden filename then ""
     else
       entryLine level verbose filename child
         ++ (if child.is_directory && (maxDepth == -1 || (level : Int) < maxDepth) then
               getFolderStructure (pathAppend dirPath filename) child (level + 1) maxDepth
                 showHidden verbose
             else ""))
      ++ walkEntries dirPath rest level maxDepth showHidden verbose
end

/-! ## Argument parser and `main` -/

/-- The variables `main` hands to `parseArguments` by reference. -/
structure Config where
  dirPath : String
  maxDepth : Int
  showHidden : Bool
  verbose : Bool
  copyClipboard : Bool
deriving DecidableEq

/-- What has been written to `std::cout` (`out`) and `std::cerr` (`err`). -/
structure Streams where
  out : String
  err : String
deriving DecidableEq

/-- How a call of `parseArguments` ends: it returns to `main`, or it calls
`exit` with a code. -/
inductive Parsed where
  | returned (cfg : Config) (io : Streams)
  | exited (code : Nat) (io : Streams)
deriving DecidableEq

/-- The text `printUsage` writes. -/
def usage : String :=
  "Usage: lsd [options] [directory]\n"
    ++ "Options:\n"
    ++ "  /, --depth <n>      Limit recursion depth\n"
    ++ "  -, --hidden         Include hidden files\n"
    ++ "  +, --verbose        Show detailed information\n"
    ++ "  =, --clipboard      Copy output to clipboard\n"
    ++ "  h               Show this help message\n"

/-- Embeds `printUsage`: the usage text goes to `std::cout`. -/
def printUsage (io : Streams) : Streams :=
  { io with out := io.out ++ usage }

/-- The characters `strtol` skips before the number (`isspace` in the C locale). -/
def isSpace (c : Char) : Bool :=
  c == ' ' || c == '\t' || c == '\n' || c == '\x0b' || c == '\x0c' || c == '\r'

/-- Value of a sequence of decimal digits. -/
def digitsValue (ds : List Char) : Nat :=
  ds.foldl (fun acc c => 10 * acc + (c.toNat - '0'.toNat)) 0

/-- Embeds `std::stoi(str)`: leading white space is skipped, an optional sign
is read, then the longest run of decimal digits; what follows is ignored.
`none` stands for the thrown exception: `std::invalid_argument` when there is
no digit, `std::out_of_range` when the value is not an `int`. -/
def stoi (str : String) : Option Int :=
  let cs := str.data.dropWhile isSpace
  let signed : Bool × List Char :=
    match cs with
    | '-' :: r => (true, r)
    | '+' :: r => (false, r)
    | r => (false, r)
  let ds := signed.2.takeWhile Char.isDigit
  if ds = [] then none
  else
    let v : Int := if signed.1 then -(digitsValue ds : Int) else (digitsValue ds : Int)
    if -2 ^ 31 ≤ v ∧ v ≤ 2 ^ 31 - 1 then some v else none

/-- The diagnostic for a depth value that cannot be read. -/
def invalidDepthMessage : String := "Invalid depth value. Using default (-1).\n"

/-- Embeds `parseArguments` on the tokens `argv[1..argc-1]`: the loop over the
tokens, with the referenced variables as `cfg` and the streams as `io`. -/
def parseArguments : List String → Config → Streams → Parsed
  | [], cfg, io => .returned cfg io
  | arg :: rest, cfg, io =>
    if arg = "/" then
      match rest with
      | value :: rest' =>
        match stoi value with
        | some n => parseArguments rest' { cfg with maxDepth := n } io
        | none =>
          parseArguments rest' { cfg with maxDepth := -1 }
            { io with err := io.err ++ invalidDepthMessage }
      | [] =>
        .returned { cfg with maxDepth := -1 } { io with err := io.err ++ invalidDepthMessage }
    else if arg = "+" then parseArguments rest { cfg with verbose := true } io
    else if arg = "-" then parseArguments rest { cfg with showHidden := true } io
    else if arg = "=" then parseArguments rest { cfg with copyClipboard := true } io
    else if arg = "h" then .exited 0 (printUsage io)
    else if cfg.dirPath = "" then parseArguments rest { cfg with dirPath := arg } io
    else
      .exited 1 (printUsage { io with err := io.err ++ "Unknown argument: " ++ arg ++ "\n" })

/-- The platform the program was compiled for (`__APPLE__`, `__linux__`, other). -/
inductive Platform where
  | apple
  | linux
  | other
deriving DecidableEq

/-- The environment of a run in which no call into the system fails with an
exception or a signal: the current directory `fs::current_path()` returns,
what each path resolves to, the platform, and whether `popen` of the clipboard
utility gives a pipe (that then takes the text).  The failing calls are in
`Environment` and `mainExc`. -/
structure World where
  cwd : String
  resolve : String → Node
  platform : Platform
  popenOk : Bool

/-- What a run of the program leaves behind: exit code, the two streams, the
root path handed to `getFolderStructure` (`none` when the walker was never
called) and the text piped to the clipboard utility. -/
structure Run where
  exitCode : Nat
  out : String
  err : String
  walked : Option String
  clipboard : Option String
deriving DecidableEq

/-- Embeds `copyToClipboard` for a pipe that takes what is written to it: the
text written to the pipe, and the diagnostics.  (A pipe whose reader is gone
kills the process, see `mainExc`.) -/
def copyToClipboard (w : World) (text : String) (err : String) : Option String × String :=
  match w.platform with
  | .other =>
    (none, err ++ "Clipboard functionality is not supported on this platform.\n"
      ++ "Error: Unable to access clipboard utility.\n")
  | _ =>
    if w.popenOk then (some text, err)
    else (none, err ++ "Error: Unable to access clipboard utility.\n")

/-- The values `main` gives the variables before it calls `parseArguments`,
once `fs::current_path()` has returned `w.cwd` (the call can also throw, see
`mainExc`). -/
def initialConfig (w : World) : Config :=
  { dirPath := w.cwd, maxDepth := -1, showHidden := false, verbose := false,
    copyClipboard := false }

/-- Embeds `main` for the command line `argv` (`argv[0]` is the program name),
for a run in which `fs::current_path()`, the status query of the root path and
the clipboard pipe do not fail; `mainExc` is `main` with these failures. -/
def main (w : World) (argv : List String) : Run :=
  match parseArguments (argv.drop 1) (initialConfig w) { out := "", err := "" } with
  | .exited code io =>
    { exitCode := code, out := io.out, err := io.err, walked := none, clipboard := none }
  | .returned cfg io =>
    let header := "Folder structure of: " ++ quoted cfg.dirPath ++ "\n"
    let output :=
      getFolderStructure cfg.dirPath (w.resolve cfg.dirPath) 0 cfg.maxDepth cfg.showHidden
        cfg.verbose
    if cfg.copyClipboard then
      let clip := copyToClipboard w output io.err
      { exitCode := 0,
        out := io.out ++ header ++ output ++ "Copied folder structure to clipboard.\n",
        err := clip.2, walked := some cfg.dirPath, clipboard := clip.1 }
    else
      { exitCode := 0, out := io.out ++ header ++ output, err := io.err,
        walked := some cfg.dirPath, clipboard := none }

/-! ## Calls that fail: exceptions and signals -/

/-- What the status query behind `fs::exists` and `fs::is_directory` gives for
a path: the node there (`Node.missing` when the query reports that nothing is
there, errors `ENOENT` and `ENOTDIR`), or a failure of the query itself (a
name that is too long, a parent directory that cannot be searched, a loop of
links), on which these calls throw `filesystem_error`. -/
inductive Status where
  | resolved (node : Node) : Status
  | failed : Status

/-- Embeds `fs::exists(path)` with its exception: `none` stands for the thrown
`filesystem_error`. -/
def Status.fsExists : Status → Option Bool
  | .resolved node => some node.fsExists
  | .failed => none

/-- Embeds a call of `getFolderStructure` on a path with the given status,
with the exception channel explicit: the guard evaluates `fs::exists(dirPath)`
first, and when that call throws nothing in the function catches it (`none`);
otherwise the function goes on as `getFolderStructure` on the node found. -/
def getFolderStructureExc (dirPath : String) (status : Status) (level : Nat) (maxDepth : Int)
    (showHidden verbose : Bool) : Option String :=
  match status.fsExists, status with
  | some _, .resolved node =>
    some (getFolderStructure dirPath node level maxDepth showHidden verbose)
  | _, _ => none

/-- What becomes of the pipe to the clipboard utility: `popen` gives no pipe;
the utility reads what is written; or the shell started by `popen` has no
utility to run, and writing to the pipe raises `SIGPIPE`. -/
inductive Pipe where
  | unavailable
  | accepts
  | broken
deriving DecidableEq

/-- The environment of a run with the calls that can fail: `currentPath` is
what `fs::current_path()` returns (`none` when it throws, as in a current
directory that has been removed), `status` the result of the status query on
each path, `pipe` the fate of the clipboard pipe. -/
structure Environment where
  currentPath : Option String
  status : String → Status
  platform : Platform
  pipe : Pipe

/-- How a run of the program ends: `main` returns or `exit` is called
(`finished`); an exception that nothing catches reaches `std::terminate` and
the process is aborted (`aborted`, signal `SIGABRT`); or the process is killed
by `SIGPIPE` (`killed`). -/
inductive Ending where
  | finished (run : Run)
  | aborted
  | killed
deriving DecidableEq

/-- Embeds `main` with the calls that can fail, in the order of the source:
`fs::current_path()`, `parseArguments`, the header line, `getFolderStructure`
on the root path, the report, and for `=` the clipboard. -/
def mainExc (env : Environment) (argv : List String) : Ending :=
  match env.currentPath with
  | none => .aborted
  | some cwd =>
    match parseArguments (argv.drop 1)
        { dirPath := cwd, maxDepth := -1, showHidden := false, verbose := false,
          copyClipboard := false }
        { out := "", err := "" } with
    | .exited code io =>
      .finished
        { exitCode := code, out := io.out, err := io.err, walked := none, clipboard := none }
    | .returned cfg io =>
      let header := "Folder structure of: " ++ quoted cfg.dirPath ++ "\n"
      match getFolderStructureExc cfg.dirPath (env.status cfg.dirPath) 0 cfg.maxDepth
          cfg.showHidden cfg.verbose with
      | none => .aborted
      | some output =>
        if cfg.copyClipboard then
          match env.platform, env.pipe with
          | .other, _ =>
            .finished
              { exitCode := 0,
                out := io.out ++ header ++ output ++ "Copied folder structure to clipboard.\n",
                err := io.err ++ "Clipboard functionality is not supported on this platform.\n"
                  ++ "Error: Unable to access clipboard utility.\n",
                walked := some cfg.dirPath, clipboard := none }
          | _, .unavailable =>
            .finished
              { exitCode := 0,
                out := io.out ++ header ++ output ++ "Copied folder structure to clipboard.\n",
                err := io.err ++ "Error: Unable to access clipboard utility.\n",
                walked := some cfg.dirPath, clipboard := none }
          | _, .accepts =>
            .finished
              { exitCode := 0,
                out := io.out ++ header ++ output ++ "Copied folder structure to clipboard.\n",
                err := io.err, walked := some cfg.dirPath, clipboard := some output }
          | _, .broken => .killed
        else
          .finished
            { exitCode := 0, out := io.out ++ header ++ output, err := io.err,
              walked := some cfg.dirPath, clipboard := none }

/-! ## The listing the walker is specified to print

A description of the report that does not follow the recursion of the code:
all entries of the tree in pre-order, filtered by a predicate on the entry
alone (its ancestors' names, its own name, its level). -/

/-- An entry of the tree below the root: the names of the directories between
the root and the entry (outermost first), its file name, and its node. -/
structure Item where
  ancestors : List String
  name : String
  node : Node

/-- Number of directories between the entry and the root. -/
def Item.level (i : Item) : Nat := i.ancestors.length

mutual
/-- Pre-order list of everything below a node whose chain of directory names
from the root is `anc` (nothing for a non-directory). -/
def Node.items (anc : List String) : Node → List Item
  | .dir entries => preorder anc entries
  | _ => []
/-- Pre-order list of the entries of a directory and of all their descendants:
each entry is followed at once by its whole subtree, siblings keep the
iteration order. -/
def preorder (anc : List String) : List (String × Node) → List Item
  | [] => []
  | (filename, child) :: rest =>
    ⟨anc, filename, child⟩ :: (child.items (anc ++ [filename]) ++ preorder anc rest)
end

/-- The entry or one of the directories above it has a name starting with a dot. -/
def Item.hiddenPath (i : Item) : Bool :=
  i.ancestors.any isHidden || isHidden i.name

/-- The level is within the depth limit: no limit for `-1`; otherwise the
root's own entries (level 0) and the levels up to `maxDepth`. -/
def withinDepth (maxDepth : Int) (level : Nat) : Bool :=
  maxDepth == -1 || level == 0 || decide ((level : Int) ≤ maxDepth)

/-- The entry is to be printed. -/
def shown (maxDepth : Int) (showHidden : Bool) (i : Item) : Bool :=
  (showHidden || !i.hiddenPath) && withinDepth maxDepth i.level

/-- The entries to be printed for a root directory with the given entries. -/
def listing (entries : List (String × Node)) (maxDepth : Int) (showHidden : Bool) : List Item :=
  (preorder [] entries).filter (shown maxDepth showHidden)

/-- Concatenation of texts in order. -/
def concat : List String → String
  | [] => ""
  | s :: rest => s ++ concat rest

/-- The line specified for an entry: one tab per level, the file name, for
verbose output the bracketed annotation, and the end of line. -/
def Item.line (verbose : Bool) (i : Item) : String :=
  tabs i.level ++ i.name
    ++ (if verbose then
          (if i.node.is_directory then " [Directory]"
           else " [" ++ getFileType i.name ++ ", " ++ getFileSize i.node ++ "]")
        else "")
    ++ "\n"

/-- The report for a list of entries: one line per entry, in order. -/
def render (verbose : Bool) (items : List Item) : String :=
  concat (items.map (Item.line verbose))

/-- The direct entries of a directory (none for anything else). -/
def Node.children : Node → List (String × Node)
  | .dir entries => entries
  | _ => []

/-- The hidden-file rule for one name: printed when hidden entries are shown
or the name does not start with a dot. -/
def visibleName (showHidden : Bool) (filename : String) : Bool :=
  showHidden || !isHidden filename

/-- A token that is none of the flag tokens `/`, `+`, `-`, `=`, `h`. -/
def isBare (t : String) : Bool :=
  t != "/" && t != "+" && t != "-" && t != "=" && t != "h"

/-- The token sequence ends with a `/` whose value token is still to come, so
the next token would be consumed as a depth value. -/
def danglingSlash : List String → Bool
  | [] => false
  | [a] => a == "/"
  | a :: b :: rest => if a == "/" then danglingSlash rest else danglingSlash (b :: rest)

/-- The text is made of decimal digits and decimal points only. -/
def isNumeric (s : String) : Bool :=
  s.data.all (fun c => c.isDigit || c == '.')

/-- The lines of a text: the runs of characters that end at a newline, and a
last run without newline when it is not empty. -/
def textLines : List Char → List (List Char)
  | [] => []
  | c :: cs =>
    if c = '\n' then [] :: textLines cs
    else
      match textLines cs with
      | [] => [[c]]
      | l :: ls => (c :: l) :: ls

/-- Number of tab characters a line starts with. -/
def leadingTabs (line : List Char) : Nat :=
  (line.takeWhile (fun c => c == '\t')).length

/-- The annotation of an entry's line (empty unless verbose). -/
def Item.annotation (verbose : Bool) (i : Item) : String :=
  if verbose then
    (if i.node.is_directory then " [Directory]"
     else " [" ++ getFileType i.name ++ ", " ++ getFileSize i.node ++ "]")
  else ""

/-- One of the three flag tokens that take no value: `+`, `-`, `=`. -/
def isSimpleFlag (t : String) : Bool :=
  t == "+" || t == "-" || t == "="

/-- The token sequence is made of well-formed flags only: `+`, `-`, `=`, and
`/` together with the token after it (its value). -/
def wellFormedFlags : List String → Bool
  | [] => true
  | [a] => isSimpleFlag a
  | a :: b :: rest =>
    if a == "/" then wellFormedFlags rest else isSimpleFlag a && wellFormedFlags (b :: rest)

/-! ## Lemmas: paths -/

theorem invalid_guard_iff (node : Node) :
    (!node.fsExists || !node.is_directory) = false ↔ ∃ entries, node = .dir entries := by
  cases node <;> simp [Node.fsExists, Node.is_directory]

theorem lastComponent_of_no_slash (cs : List Char) (h : '/' ∉ cs) : lastComponent cs = cs := by
  induction cs with
  | nil => rfl
  | cons c cs ih =>
    have h1 : '/' ∉ cs := fun hm => h (List.mem_cons_of_mem _ hm)
    have h2 : c ≠ '/' := fun hc => h (hc ▸ List.mem_cons_self _ _)
    simp [lastComponent, h1, h2]

theorem lastComponent_append_slash (ds cs : List Char) (h : '/' ∉ cs) :
    lastComponent (ds ++ '/' :: cs) = cs := by
  induction ds with
  | nil => simp [lastComponent, h]
  | cons d ds ih => simp [lastComponent, ih]

/-- The file name of the entry path `dirPath / name` is `name`. -/
theorem filenameOf_pathAppend (dirPath name : String) (h : '/' ∉ name.data) :
    filenameOf (pathAppend dirPath name) = name := by
  unfold pathAppend filenameOf
  by_cases h1 : dirPath = ""
  · subst h1
    simp [lastComponent_of_no_slash _ h]
  · by_cases h2 : dirPath.data.getLast? = some '/'
    · obtain ⟨init, hinit⟩ := List.getLast?_eq_some_iff.mp h2
      rw [if_pos (Or.inr h2)]
      simp only [String.data_append, hinit, List.append_assoc, List.singleton_append]
      rw [lastComponent_append_slash _ _ h]
    · rw [if_neg (by simp [h1, h2])]
      simp only [String.data_append, List.append_assoc]
      rw [show dirPath.data ++ (['/'] ++ name.data) = dirPath.data ++ '/' :: name.data by simp,
        lastComponent_append_slash _ _ h]

theorem isHidden_pathAppend (dirPath name : String) (h : '/' ∉ name.data) :
    isHidden (pathAppend dirPath name) = isHidden name := by
  simp only [isHidden, filenameOf_pathAppend dirPath name h]
  unfold filenameOf
  rw [lastComponent_of_no_slash _ h]

theorem getFileType_pathAppend (dirPath name : String) (h : '/' ∉ name.data) :
    getFileType (pathAppend dirPath name) = getFileType name := by
  simp only [getFileType, getFileTypeExc, extension, filenameOf_pathAppend dirPath name h]
  unfold filenameOf
  rw [lastComponent_of_no_slash _ h]

/-! ## Lemmas: texts -/

theorem concat_append (xs ys : List String) : concat (xs ++ ys) = concat xs ++ concat ys := by
  induction xs with
  | nil => simp [concat]
  | cons x xs ih => simp [concat, ih, String.append_assoc]

theorem render_append (vb : Bool) (xs ys : List Item) :
    render vb (xs ++ ys) = render vb xs ++ render vb ys := by
  simp [render, concat_append]

theorem entryLine_eq_line (anc : List String) (vb : Bool) (name : String) (node : Node) :
    entryLine anc.length vb name node = Item.line vb ⟨anc, name, node⟩ := by
  cases vb <;> cases h : node.is_directory <;>
    simp [entryLine, Item.line, Item.level, h, String.append_assoc]

/-! ## Lemmas: the walker prints the listing -/

mutual
theorem Node.items_prefix : ∀ (n : Node) (anc : List String) (i : Item),
    i ∈ n.items anc → anc <+: i.ancestors
  | .missing, anc, i, h => by simp [Node.items] at h
  | .file _, anc, i, h => by simp [Node.items] at h
  | .dir es, anc, i, h => by
    simp only [Node.items] at h
    exact preorder_prefix es anc i h
theorem preorder_prefix : ∀ (es : List (String × Node)) (anc : List String) (i : Item),
    i ∈ preorder anc es → anc <+: i.ancestors
  | [], anc, i, h => by simp [preorder] at h
  | (name, child) :: rest, anc, i, h => by
    simp only [preorder, List.mem_cons, List.mem_append] at h
    rcases h with rfl | h | h
    · exact List.prefix_refl _
    · exact (List.prefix_append anc [name]).trans (Node.items_prefix child _ i h)
    · exact preorder_prefix rest anc i h
end

theorem Node.items_of_not_dir (n : Node) (anc : List String) (h : n.is_directory = false) :
    n.items anc = [] := by
  cases n <;> simp [Node.items, Node.is_directory] at h ⊢

theorem items_level_ge (n : Node) (anc : List String) (i : Item) (h : i ∈ n.items anc) :
    anc.length ≤ i.level :=
  (Node.items_prefix n anc i h).length_le

theorem filter_pruned_depth (n : Node) (anc : List String) (name : String) (md : Int) (sh : Bool)
    (h1 : md ≠ -1) (h2 : ¬ ((anc.length : Int) < md)) :
    (n.items (anc ++ [name])).filter (shown md sh) = [] := by
  rw [List.filter_eq_nil_iff]
  intro i hi
  have := items_level_ge n _ i hi
  simp only [List.length_append, List.length_singleton] at this
  simp only [shown, withinDepth, Bool.and_eq_true, Bool.or_eq_true, beq_iff_eq,
    decide_eq_true_eq, not_and, not_or]
  intro _
  refine ⟨⟨h1, by omega⟩, by omega⟩

theorem filter_pruned_hidden (n : Node) (anc : List String) (name : String) (md : Int)
    (h : isHidden name = true) :
    (n.items (anc ++ [name])).filter (shown md false) = [] := by
  rw [List.filter_eq_nil_iff]
  intro i hi
  have hp := Node.items_prefix n _ i hi
  have hmem : name ∈ i.ancestors := hp.subset (by simp)
  have : i.ancestors.any isHidden = true := List.any_eq_true.mpr ⟨name, hmem, h⟩
  simp [shown, Item.hiddenPath, this]

mutual
theorem getFolderStructure_eq_render : ∀ (n : Node) (dirPath : String) (anc : List String)
    (md : Int) (sh vb : Bool), n.is_directory = true →
    (sh || !anc.any isHidden) = true → withinDepth md anc.length = true →
    getFolderStructure dirPath n anc.length md sh vb
      = render vb ((n.items anc).filter (shown md sh))
  | .missing, _, _, _, _, _, h, _, _ => by simp [Node.is_directory] at h
  | .file _, _, _, _, _, _, h, _, _ => by simp [Node.is_directory] at h
  | .dir es, dirPath, anc, md, sh, vb, _, h1, h2 => by
    simp only [getFolderStructure, Node.items]
    exact walkEntries_eq_render es dirPath anc md sh vb h1 h2
theorem walkEntries_eq_render : ∀ (es : List (String × Node)) (dirPath : String)
    (anc : List String) (md : Int) (sh vb : Bool),
    (sh || !anc.any isHidden) = true → withinDepth md anc.length = true →
    walkEntries dirPath es anc.length md sh vb
      = render vb ((preorder anc es).filter (shown md sh))
  | [], _, _, _, _, _, _, _ => by simp [walkEntries, preorder, render, concat]
  | (name, child) :: rest, dirPath, anc, md, sh, vb, h1, h2 => by
    have ihr := walkEntries_eq_render rest dirPath anc md sh vb h1 h2
    simp only [walkEntries, preorder, ihr, List.filter_cons, List.filter_append]
    by_cases hh : (!sh && isHidden name) = true
    · -- the entry is skipped, and so is everything below it
      have hsh : sh = false := by cases sh <;> simp_all
      have hn : isHidden name = true := by cases sh <;> simp_all
      subst hsh
      have hhead : shown md false ⟨anc, name, child⟩ = false := by
        simp [shown, Item.hiddenPath, hn]
      simp only [hh, if_true, hhead, filter_pruned_hidden child anc name md hn]
      simp
    · have hvis : (sh || !isHidden name) = true := by
        cases sh <;> cases hi : isHidden name <;> simp_all
      have hhead : shown md sh ⟨anc, name, child⟩ = true := by
        cases sh <;> simp_all [shown, Item.hiddenPath, Item.level]
      simp only [hh, hhead, if_true, Bool.false_eq_true, if_false]
      rw [show (⟨anc, name, child⟩ :: ((child.items (anc ++ [name])).filter (shown md sh)
            ++ (preorder anc rest).filter (shown md sh)))
          = [⟨anc, name, child⟩] ++ (child.items (anc ++ [name])).filter (shown md sh)
            ++ (preorder anc rest).filter (shown md sh) by simp]
      rw [render_append, render_append]
      congr 1
      have hline : render vb [⟨anc, name, child⟩] = entryLine anc.length vb name child := by
        simp [render, concat, entryLine_eq_line]
      rw [hline]
      congr 1
      by_cases hexp :
          (child.is_directory && (md == -1 || decide ((anc.length : Int) < md))) = true
      · -- the subdirectory is expanded: one level further down
        simp only [hexp, if_true]
        have hd : child.is_directory = true := by simp_all
        have hvis2 : (sh || !(anc ++ [name]).any isHidden) = true := by
          cases sh <;> simp_all
        have hdep : withinDepth md (anc ++ [name]).length = true := by
          simp only [Bool.and_eq_true, Bool.or_eq_true, beq_iff_eq, decide_eq_true_eq] at hexp
          simp only [withinDepth, Bool.or_eq_true, beq_iff_eq, decide_eq_true_eq,
            List.length_append, List.length_singleton]
          rcases hexp.2 with h | h
          · exact Or.inl (Or.inl h)
          · right; push_cast; omega
        have := getFolderStructure_eq_render child (pathAppend dirPath name) (anc ++ [name])
          md sh vb hd hvis2 hdep
        simpa using this
      · simp only [hexp, Bool.false_eq_true, if_false]
        by_cases hd : child.is_directory = true
        · have h3 : md ≠ -1 ∧ ¬ ((anc.length : Int) < md) := by
            simp_all
          rw [filter_pruned_depth child anc name md sh h3.1 h3.2]
          simp [render, concat]
        · rw [Node.items_of_not_dir child _ (by simpa using hd)]
          simp [render, concat]
end

/-- The report of a level-0 call on a directory is the rendered listing. -/
theorem getFolderStructure_root (dirPath : String) (entries : List (String × Node))
    (md : Int) (sh vb : Bool) :
    getFolderStructure dirPath (.dir entries) 0 md sh vb = render vb (listing entries md sh) := by
  have := getFolderStructure_eq_render (.dir entries) dirPath [] md sh vb rfl
    (by simp) (by simp [withinDepth])
  simpa [listing, Node.items] using this

theorem preorder_filter_at_limit (es : List (String × Node)) (anc : List String) (md : Int)
    (sh : Bool) (hvis : (sh || !anc.any isHidden) = true)
    (hd : withinDepth md anc.length = true) (h1 : md ≠ -1) (h2 : ¬ ((anc.length : Int) < md)) :
    (preorder anc es).filter (shown md sh)
      = (es.filter (fun e => visibleName sh e.1)).map (fun e => ⟨anc, e.1, e.2⟩) := by
  induction es with
  | nil => simp [preorder]
  | cons e rest ih =>
    obtain ⟨name, child⟩ := e
    simp only [preorder, List.filter_cons, List.filter_append,
      filter_pruned_depth child anc name md sh h1 h2, List.nil_append, ih]
    have hs : shown md sh ⟨anc, name, child⟩ = visibleName sh name := by
      cases sh <;> simp_all [shown, Item.hiddenPath, Item.level, visibleName]
    rw [hs]
    cases visibleName sh name <;> simp

theorem filter_pruned_invisible (n : Node) (anc : List String) (name : String) (md : Int)
    (sh : Bool) (h : visibleName sh name = false) :
    (n.items (anc ++ [name])).filter (shown md sh) = [] := by
  have hsh : sh = false := by cases sh <;> simp_all [visibleName]
  subst hsh
  exact filter_pruned_hidden n anc name md (by simpa [visibleName] using h)

theorem listing_depth_zero (es : List (String × Node)) (sh : Bool) :
    listing es 0 sh = (es.filter (fun e => visibleName sh e.1)).map (fun e => ⟨[], e.1, e.2⟩) :=
  preorder_filter_at_limit es [] 0 sh (by simp) (by simp [withinDepth]) (by decide) (by simp)

theorem listing_depth_one (es : List (String × Node)) (sh : Bool) :
    listing es 1 sh
      = (es.filter (fun e => visibleName sh e.1)).flatMap (fun e =>
          ⟨[], e.1, e.2⟩
            :: (e.2.children.filter (fun c => visibleName sh c.1)).map
                (fun c => ⟨[e.1], c.1, c.2⟩)) := by
  unfold listing
  induction es with
  | nil => simp [preorder]
  | cons e rest ih =>
    obtain ⟨name, child⟩ := e
    simp only [preorder, List.filter_cons, List.filter_append, ih]
    have hs : shown 1 sh ⟨[], name, child⟩ = visibleName sh name := by
      cases sh <;> simp [shown, Item.hiddenPath, Item.level, visibleName, withinDepth]
    rw [hs]
    cases hv : visibleName sh name
    · have := filter_pruned_invisible child [] name 1 sh hv
      simp only [List.nil_append] at this
      simp [this]
    · have hsub : (child.items ([] ++ [name])).filter (shown 1 sh)
          = (child.children.filter (fun c => visibleName sh c.1)).map
              (fun c => ⟨[name], c.1, c.2⟩) := by
        cases child with
        | missing => simp [Node.items, Node.children]
        | file size => simp [Node.items, Node.children]
        | dir es2 =>
          simp only [Node.items, Node.children, List.nil_append]
          exact preorder_filter_at_limit es2 [name] 1 sh
            (by cases sh <;> simp_all [visibleName]) (by simp [withinDepth]) (by decide)
            (by simp)
      simp only [List.nil_append] at hsub
      simp [hsub, List.flatMap_cons]

/-! ## Lemmas: the size formatter -/

theorem digitChar_isDigit : ∀ k, k < 10 → (Nat.digitChar k).isDigit = true := by decide

theorem toDigitsCore_isDigit (fuel : Nat) : ∀ (n : Nat) (acc : List Char),
    (∀ c ∈ acc, c.isDigit = true) →
    ∀ c ∈ Nat.toDigitsCore 10 fuel n acc, c.isDigit = true := by
  induction fuel with
  | zero => intro n acc h; simpa [Nat.toDigitsCore] using h
  | succ fuel ih =>
    intro n acc h
    have hd : (Nat.digitChar (n % 10)).isDigit = true :=
      digitChar_isDigit _ (Nat.mod_lt _ (by decide))
    have hacc : ∀ c ∈ Nat.digitChar (n % 10) :: acc, c.isDigit = true := by
      intro c hc
      rcases List.mem_cons.mp hc with rfl | hc
      · exact hd
      · exact h c hc
    simp only [Nat.toDigitsCore]
    split
    · exact hacc
    · exact ih _ _ hacc

theorem toString_isDigit (n : Nat) : ∀ c ∈ (toString n).data, c.isDigit = true := by
  show ∀ c ∈ (Nat.repr n).data, c.isDigit = true
  simp only [Nat.repr, Nat.toDigits, List.asString]
  exact toDigitsCore_isDigit _ _ _ (by simp)

theorem fixed2_isNumeric (num den : Nat) : isNumeric (fixed2 num den) = true := by
  simp only [isNumeric, List.all_eq_true, Bool.or_eq_true, beq_iff_eq]
  intro c hc
  simp only [fixed2, twoDigits, String.data_append, List.mem_append] at hc
  rcases hc with (hc | hc) | hc
  · exact Or.inl (toString_isDigit _ c hc)
  · right
    simpa using hc
  · left
    simp only [List.mem_cons, List.mem_singleton, List.not_mem_nil, or_false] at hc
    rcases hc with rfl | rfl
    · exact digitChar_isDigit _ (Nat.div_lt_of_lt_mul (Nat.mod_lt _ (by decide)))
    · exact digitChar_isDigit _ (Nat.mod_lt _ (by decide))

theorem roundHalfEven_near (num den : Nat) (hden : 0 < den) :
    2 * (roundHalfEven num den * den) ≤ 2 * num + den
      ∧ 2 * num ≤ 2 * (roundHalfEven num den * den) + den := by
  have h := Nat.div_add_mod num den
  have hr := Nat.mod_lt num hden
  have hc : (num / den + 1) * den = den * (num / den) + den := by ring
  have hc2 : num / den * den = den * (num / den) := by ring
  simp only [roundHalfEven]
  split_ifs <;> simp only [hc, hc2] <;> constructor <;> omega

theorem toDouble_exact (n : Nat) (h : n < 2 ^ 53) : toDouble n = n := by
  unfold toDouble
  rw [if_pos h]

/-- The text printed for an exactly representable quotient `b / den` has an
integer part, a point and two digits, and is within 0.005 of the quotient. -/
theorem fixed2_near (b den : Nat) (hden : 0 < den) :
    ∃ ip d1 d2 : Nat, d1 < 10 ∧ d2 < 10
      ∧ fixed2 b den
          = toString ip ++ "." ++ String.mk [Nat.digitChar d1, Nat.digitChar d2]
      ∧ |((ip : ℚ) + (10 * d1 + d2 : ℚ) / 100) - (b : ℚ) / den| ≤ 5 / 1000 := by
  refine ⟨hundredths b den / 100, hundredths b den % 100 / 10, hundredths b den % 100 % 10,
    Nat.div_lt_of_lt_mul (Nat.mod_lt _ (by decide)), Nat.mod_lt _ (by decide), rfl, ?_⟩
  obtain ⟨h1, h2⟩ := roundHalfEven_near (100 * b) den hden
  have hm : 100 * (hundredths b den / 100)
      + (10 * (hundredths b den % 100 / 10) + hundredths b den % 100 % 10)
      = hundredths b den := by omega
  have hmq : (100 : ℚ) * ((hundredths b den / 100 : Nat) : ℚ)
      + (10 * ((hundredths b den % 100 / 10 : Nat) : ℚ) + ((hundredths b den % 100 % 10 : Nat) : ℚ))
      = ((hundredths b den : Nat) : ℚ) := by exact_mod_cast hm
  have hdq : (0 : ℚ) < den := by exact_mod_cast hden
  have hx : (b : ℚ) / den * den = b := div_mul_cancel₀ _ (ne_of_gt hdq)
  have h1q : 2 * (((hundredths b den : Nat) : ℚ) * den) ≤ 2 * (100 * (b : ℚ)) + den := by
    have : 2 * (hundredths b den * den) ≤ 2 * (100 * b) + den := h1
    exact_mod_cast this
  have h2q : 2 * (100 * (b : ℚ)) ≤ 2 * (((hundredths b den : Nat) : ℚ) * den) + den := by
    have : 2 * (100 * b) ≤ 2 * (hundredths b den * den) + den := h2
    exact_mod_cast this
  generalize (b : ℚ) / den = x at hx ⊢
  generalize ((hundredths b den : Nat) : ℚ) = m at hmq h1q h2q
  rw [← hx] at h1q h2q
  have e1 : 2 * m ≤ 200 * x + 1 := by
    have : (2 * m) * den ≤ (200 * x + 1) * den := by nlinarith
    exact le_of_mul_le_mul_right this hdq
  have e2 : 200 * x ≤ 2 * m + 1 := by
    have : (200 * x) * den ≤ (2 * m + 1) * den := by nlinarith
    exact le_of_mul_le_mul_right this hdq
  rw [abs_le]
  constructor <;> linarith

theorem getFileSize_small (b : Nat) (h : b < 1024) :
    getFileSize (.file (some b)) = toString b ++ " B" := by
  simp [getFileSize, Node.file_size, h]

theorem getFileSize_KB (b : Nat) (h1 : 1024 ≤ b) (h2 : b < 1024 ^ 2) :
    getFileSize (.file (some b)) = fixed2 (toDouble b) 1024 ++ " KB" := by
  have h3 : ¬ b < 1024 := by omega
  have h4 : b < 1024 * 1024 := by omega
  simp [getFileSize, Node.file_size, h3, h4]

theorem getFileSize_MB (b : Nat) (h1 : 1024 ^ 2 ≤ b) (h2 : b < 1024 ^ 3) :
    getFileSize (.file (some b)) = fixed2 (toDouble b) (1024 * 1024) ++ " MB" := by
  have h3 : ¬ b < 1024 := by omega
  have h4 : ¬ b < 1024 * 1024 := by omega
  have h5 : b < 1024 * 1024 * 1024 := by omega
  simp [getFileSize, Node.file_size, h3, h4, h5]

theorem getFileSize_GB (b : Nat) (h1 : 1024 ^ 3 ≤ b) :
    getFileSize (.file (some b)) = fixed2 (toDouble b) (1024 * 1024 * 1024) ++ " GB" := by
  have h3 : ¬ b < 1024 := by omega
  have h4 : ¬ b < 1024 * 1024 := by omega
  have h5 : ¬ b < 1024 * 1024 * 1024 := by omega
  simp [getFileSize, Node.file_size, h3, h4, h5]

/-! ## Lemmas: the extension classifier -/

theorem mapAt_of_mem (table : List (String × String)) (h : (table.map Prod.fst).Nodup)
    (k v : String) (hm : (k, v) ∈ table) : mapAt table k = some v := by
  induction table with
  | nil => simp at hm
  | cons kv rest ih =>
    simp only [List.map_cons, List.nodup_cons] at h
    simp only [List.mem_cons] at hm
    rcases hm with rfl | hm
    · simp [mapAt]
    · have hne : kv.1 ≠ k := by
        intro he
        exact h.1 (he ▸ List.mem_map_of_mem Prod.fst hm)
      have := ih h.2 hm
      simp only [mapAt] at this ⊢
      rw [List.find?_cons_of_neg _ (by simpa using hne)]
      exact this

theorem mapCount_ne_zero_iff (table : List (String × String)) (k : String) :
    mapCount table k ≠ 0 ↔ k ∈ table.map Prod.fst := by
  simp only [mapCount]
  by_cases h : table.any (fun kv => kv.1 == k) = true
  · simp only [h, if_true]
    simp only [List.any_eq_true, beq_iff_eq] at h
    obtain ⟨kv, hkv, rfl⟩ := h
    simpa using ⟨kv.2, hkv⟩
  · simp only [h, Bool.false_eq_true, if_false]
    simp only [List.any_eq_true, beq_iff_eq, not_exists, not_and] at h
    simp only [ne_eq, not_true_eq_false, List.mem_map, false_iff, not_exists, not_and]
    intro kv hkv he
    exact h kv hkv he

theorem fileTypes_keys_nodup : (fileTypes.map Prod.fst).Nodup := by decide

theorem getFileTypeExc_eq_some (path : String) :
    getFileTypeExc path = some (getFileType path) := by
  simp only [getFileType]
  by_cases h : mapCount fileTypes (extension path) ≠ 0
  · obtain ⟨kv, hkv, he⟩ := List.mem_map.mp ((mapCount_ne_zero_iff _ _).mp h)
    have := mapAt_of_mem fileTypes fileTypes_keys_nodup kv.1 kv.2 hkv
    rw [← he] at h
    simp only [getFileTypeExc, ← he, this]
    rw [if_pos h]
  · simp only [getFileTypeExc]
    rw [if_neg h]

theorem getFileType_of_mem (path label : String)
    (h : (extension path, label) ∈ fileTypes) : getFileType path = label := by
  have hc : mapCount fileTypes (extension path) ≠ 0 :=
    (mapCount_ne_zero_iff _ _).mpr (List.mem_map.mpr ⟨_, h, rfl⟩)
  have := mapAt_of_mem fileTypes fileTypes_keys_nodup _ _ h
  simp only [getFileType, getFileTypeExc, this]
  rw [if_pos hc]

theorem getFileType_of_not_mem (path : String)
    (h : extension path ∉ fileTypes.map Prod.fst) :
    getFileType path = "Unknown File Type" := by
  have hc : ¬ mapCount fileTypes (extension path) ≠ 0 :=
    fun hc => h ((mapCount_ne_zero_iff _ _).mp hc)
  simp only [getFileType, getFileTypeExc]
  rw [if_neg hc]

/-! ## Lemmas: the argument parser -/

theorem danglingSlash_cons_ne (arg : String) (tl : List String) (h : arg ≠ "/") :
    danglingSlash (arg :: tl) = danglingSlash tl := by
  cases tl with
  | nil => simp [danglingSlash, h]
  | cons b rest => simp [danglingSlash, h]

theorem danglingSlash_slash_cons (v : String) (tl : List String) :
    danglingSlash ("/" :: v :: tl) = danglingSlash tl := by
  simp [danglingSlash]

/-- One step of the parser on a token other than `/`. -/
theorem parseArguments_cons_ne_slash (arg : String) (rest : List String) (cfg : Config)
    (io : Streams) (h : arg ≠ "/") :
    parseArguments (arg :: rest) cfg io
      = if arg = "+" then parseArguments rest { cfg with verbose := true } io
        else if arg = "-" then parseArguments rest { cfg with showHidden := true } io
        else if arg = "=" then parseArguments rest { cfg with copyClipboard := true } io
        else if arg = "h" then .exited 0 (printUsage io)
        else if cfg.dirPath = "" then parseArguments rest { cfg with dirPath := arg } io
        else
          .exited 1
            (printUsage { io with err := io.err ++ "Unknown argument: " ++ arg ++ "\n" }) := by
  cases rest <;> simp only [parseArguments, h, if_false]

/-- Tokens that have been processed without `exit`, and that do not end in a
`/` waiting for its value, leave the parser at the head of what follows. -/
theorem parseArguments_append (n : Nat) : ∀ (pre : List String), pre.length ≤ n →
    ∀ (cfg : Config) (io : Streams) (cfg' : Config) (io' : Streams) (rest : List String),
    danglingSlash pre = false → parseArguments pre cfg io = .returned cfg' io' →
    parseArguments (pre ++ rest) cfg io = parseArguments rest cfg' io' := by
  induction n with
  | zero =>
    intro pre hlen cfg io cfg' io' rest _ hret
    have : pre = [] := List.length_eq_zero.mp (Nat.le_zero.mp hlen)
    subst this
    simp only [parseArguments, Parsed.returned.injEq] at hret
    obtain ⟨rfl, rfl⟩ := hret
    rfl
  | succ n ih =>
    intro pre hlen cfg io cfg' io' rest hd hret
    cases pre with
    | nil =>
      simp only [parseArguments, Parsed.returned.injEq] at hret
      obtain ⟨rfl, rfl⟩ := hret
      rfl
    | cons arg tl =>
      have hl : tl.length ≤ n := by simpa using hlen
      by_cases h1 : arg = "/"
      · subst h1
        cases tl with
        | nil => simp [danglingSlash] at hd
        | cons v tl2 =>
          have hl2 : tl2.length ≤ n := by
            simp only [List.length_cons] at hl
            omega
          rw [danglingSlash_slash_cons] at hd
          simp only [parseArguments, if_true, List.cons_append] at hret ⊢
          cases hs : stoi v with
          | none =>
            simp only [hs] at hret ⊢
            exact ih tl2 hl2 _ _ _ _ rest hd hret
          | some k =>
            simp only [hs] at hret ⊢
            exact ih tl2 hl2 _ _ _ _ rest hd hret
      · rw [danglingSlash_cons_ne arg tl h1] at hd
        rw [parseArguments_cons_ne_slash _ _ _ _ h1] at hret
        rw [List.cons_append, parseArguments_cons_ne_slash _ _ _ _ h1]
        split_ifs at hret ⊢ with h2 h3 h4 h5 h6
        · exact ih tl hl _ _ _ _ rest hd hret
        · exact ih tl hl _ _ _ _ rest hd hret
        · exact ih tl hl _ _ _ _ rest hd hret
        · exact ih tl hl _ _ _ _ rest hd hret

/-- Started with an empty root path, the parser takes a bare token as root path. -/
theorem parseArguments_takes_root_path (t : String) (rest : List String) (cfg : Config)
    (io : Streams) (hb : isBare t = true) (hempty : cfg.dirPath = "") :
    parseArguments (t :: rest) cfg io = parseArguments rest { cfg with dirPath := t } io := by
  simp only [isBare, Bool.and_eq_true, bne_iff_ne, ne_eq] at hb
  obtain ⟨⟨⟨⟨h1, h2⟩, h3⟩, h4⟩, h5⟩ := hb
  rw [parseArguments_cons_ne_slash _ _ _ _ h1]
  simp [h2, h3, h4, h5, hempty]

theorem parseArguments_bare_exits (t : String) (post : List String) (cfg : Config)
    (io : Streams) (hb : isBare t = true) (hset : cfg.dirPath ≠ "") :
    parseArguments (t :: post) cfg io
      = .exited 1 { out := io.out ++ usage, err := io.err ++ "Unknown argument: " ++ t ++ "\n" } := by
  simp only [isBare, Bool.and_eq_true, bne_iff_ne, ne_eq] at hb
  obtain ⟨⟨⟨⟨h1, h2⟩, h3⟩, h4⟩, h5⟩ := hb
  rw [parseArguments_cons_ne_slash _ _ _ _ h1]
  simp [h2, h3, h4, h5, hset, printUsage]

/-! ## Lemmas: the report as lines of text -/

theorem textLines_line (l rest : List Char) (h : '\n' ∉ l) :
    textLines (l ++ '\n' :: rest) = l :: textLines rest := by
  induction l with
  | nil => simp [textLines]
  | cons c l ih =>
    have h1 : '\n' ∉ l := fun hm => h (List.mem_cons_of_mem _ hm)
    have h2 : c ≠ '\n' := fun hc => h (hc ▸ List.mem_cons_self _ _)
    simp [textLines, h2, ih h1]

theorem getFileType_no_newline (path : String) : '\n' ∉ (getFileType path).data := by
  by_cases h : extension path ∈ fileTypes.map Prod.fst
  · obtain ⟨kv, hkv, he⟩ := List.mem_map.mp h
    have hl : getFileType path = kv.2 := getFileType_of_mem path kv.2 (by rw [← he]; exact hkv)
    rw [hl]
    have hall : ∀ kv ∈ fileTypes, '\n' ∉ kv.2.data := by decide
    exact hall kv hkv
  · rw [getFileType_of_not_mem path h]
    decide

theorem isNumeric_no_newline (s : String) (h : isNumeric s = true) : '\n' ∉ s.data := by
  intro hm
  simp only [isNumeric, List.all_eq_true, Bool.or_eq_true, beq_iff_eq] at h
  rcases h _ hm with hd | hd
  · revert hd; decide
  · revert hd; decide

theorem getFileSize_no_newline (node : Node) : '\n' ∉ (getFileSize node).data := by
  unfold getFileSize
  cases node.file_size with
  | none => decide
  | some size =>
    have hu : ∀ (num den : Nat) (u : String), '\n' ∉ u.data →
        '\n' ∉ (fixed2 num den ++ u).data := by
      intro num den u hu hm
      simp only [String.data_append, List.mem_append] at hm
      rcases hm with hm | hm
      · exact isNumeric_no_newline _ (fixed2_isNumeric num den) hm
      · exact hu hm
    simp only
    split_ifs
    · intro hm
      simp only [String.data_append, List.mem_append] at hm
      rcases hm with hm | hm
      · have := toString_isDigit size _ hm
        revert this; decide
      · revert hm; decide
    · exact hu _ _ _ (by decide)
    · exact hu _ _ _ (by decide)
    · exact hu _ _ _ (by decide)

theorem Item.line_data (vb : Bool) (i : Item) :
    (Item.line vb i).data
      = (List.replicate i.level '\t' ++ (i.name.data ++ (i.annotation vb).data)) ++ ['\n'] := by
  cases vb <;> simp [Item.line, Item.annotation, tabs]

theorem Item.annotation_no_newline (vb : Bool) (i : Item) : '\n' ∉ (i.annotation vb).data := by
  unfold Item.annotation
  split_ifs
  · decide
  · intro hm
    simp only [String.data_append, List.mem_append] at hm
    rcases hm with (((hm | hm) | hm) | hm) | hm
    · revert hm; decide
    · exact getFileType_no_newline _ hm
    · revert hm; decide
    · exact getFileSize_no_newline _ hm
    · revert hm; decide
  · decide

theorem Item.annotation_head (vb : Bool) (i : Item) :
    (i.annotation vb).data.head? ≠ some '\t' := by
  unfold Item.annotation
  split_ifs
  · decide
  · simp only [String.data_append, List.append_assoc]
    simp
  · decide

/-- The lines of a rendered list of entries whose names hold no newline: one
line per entry, made of the tabs, the name and the annotation. -/
theorem textLines_render (vb : Bool) (items : List Item)
    (h : ∀ i ∈ items, '\n' ∉ i.name.data) :
    textLines (render vb items).data
      = items.map (fun i =>
          List.replicate i.level '\t' ++ (i.name.data ++ (i.annotation vb).data)) := by
  induction items with
  | nil => simp [render, concat, textLines]
  | cons i rest ih =>
    have hi : '\n' ∉ i.name.data := h i (List.mem_cons_self _ _)
    have hrest : ∀ j ∈ rest, '\n' ∉ j.name.data := fun j hj => h j (List.mem_cons_of_mem _ hj)
    have hbody : '\n' ∉ List.replicate i.level '\t' ++ (i.name.data ++ (i.annotation vb).data) := by
      intro hm
      simp only [List.mem_append] at hm
      rcases hm with hm | hm | hm
      · have := List.eq_of_mem_replicate hm
        revert this; decide
      · exact hi hm
      · exact Item.annotation_no_newline vb i hm
    have hr : render vb (i :: rest) = Item.line vb i ++ render vb rest := by
      simp [render, concat]
    rw [hr, String.data_append, Item.line_data, List.append_assoc, List.singleton_append,
      textLines_line _ _ hbody, ih hrest]
    simp

theorem leadingTabs_body (vb : Bool) (i : Item) (h : i.name.data.head? ≠ some '\t') :
    leadingTabs (List.replicate i.level '\t' ++ (i.name.data ++ (i.annotation vb).data))
      = i.level := by
  have hrest : (i.name.data ++ (i.annotation vb).data).takeWhile (fun c => c == '\t') = [] := by
    cases hn : i.name.data with
    | nil =>
      have ha := Item.annotation_head vb i
      rw [List.nil_append]
      cases hd : (i.annotation vb).data with
      | nil => rfl
      | cons c cs =>
        rw [hd] at ha
        have hc : c ≠ '\t' := fun he => ha (by simp [he])
        simp [List.takeWhile_cons, hc]
    | cons c cs =>
      rw [hn] at h
      have hc : c ≠ '\t' := fun he => h (by simp [he])
      simp [List.takeWhile_cons, hc]
  unfold leadingTabs
  generalize i.level = k
  induction k with
  | zero => simp [hrest]
  | succ k ih =>
    simp only [List.replicate_succ, List.cons_append, List.takeWhile_cons, beq_self_eq_true,
      if_true, List.length_cons, ih]

/-! ## Lemmas: reading back a printed integer -/

theorem digitChar_value : ∀ k, k < 10 → (Nat.digitChar k).toNat - '0'.toNat = k := by decide

theorem toDigitsCore_append (fuel : Nat) : ∀ (n : Nat) (acc : List Char),
    Nat.toDigitsCore 10 fuel n acc = Nat.toDigitsCore 10 fuel n [] ++ acc := by
  induction fuel with
  | zero => intro n acc; simp [Nat.toDigitsCore]
  | succ fuel ih =>
    intro n acc
    simp only [Nat.toDigitsCore]
    split
    · simp
    · rw [ih (n / 10) (Nat.digitChar (n % 10) :: acc), ih (n / 10) [Nat.digitChar (n % 10)]]
      simp

theorem digitsValue_append_single (ds : List Char) (c : Char) :
    digitsValue (ds ++ [c]) = 10 * digitsValue ds + (c.toNat - '0'.toNat) := by
  simp [digitsValue, List.foldl_append]

theorem digitsValue_toDigitsCore (fuel : Nat) : ∀ n, n < fuel →
    digitsValue (Nat.toDigitsCore 10 fuel n []) = n := by
  induction fuel with
  | zero => intro n h; omega
  | succ fuel ih =>
    intro n h
    simp only [Nat.toDigitsCore]
    split
    · rename_i h0
      have hn : n < 10 := by omega
      have : n % 10 = n := Nat.mod_eq_of_lt hn
      rw [this]
      simpa [digitsValue] using digitChar_value n hn
    · rename_i h0
      rw [toDigitsCore_append, digitsValue_append_single, ih (n / 10) (by omega),
        digitChar_value _ (Nat.mod_lt _ (by decide))]
      omega

theorem digitsValue_toString (n : Nat) : digitsValue (toString n).data = n := by
  show digitsValue (Nat.repr n).data = n
  simp only [Nat.repr, Nat.toDigits, List.asString]
  exact digitsValue_toDigitsCore (n + 1) n (Nat.lt_succ_self n)

theorem toDigitsCore_ne_nil (fuel n : Nat) (acc : List Char) (h : 0 < fuel) :
    Nat.toDigitsCore 10 fuel n acc ≠ [] := by
  cases fuel with
  | zero => omega
  | succ fuel =>
    rw [toDigitsCore_append]
    simp only [Nat.toDigitsCore]
    split
    · simp
    · rw [toDigitsCore_append]
      simp

theorem toString_data_ne_nil (n : Nat) : (toString n).data ≠ [] := by
  show (Nat.repr n).data ≠ []
  simp only [Nat.repr, Nat.toDigits, List.asString]
  exact toDigitsCore_ne_nil _ _ _ (Nat.succ_pos n)

theorem isSpace_of_isDigit (c : Char) (h : c.isDigit = true) : isSpace c = false := by
  simp only [isSpace, Bool.or_eq_false_iff, beq_eq_false_iff_ne, ne_eq]
  refine ⟨⟨⟨⟨⟨?_, ?_⟩, ?_⟩, ?_⟩, ?_⟩, ?_⟩ <;> (rintro rfl; revert h; decide)

theorem stoi_digits (ds : List Char) (hne : ds ≠ []) (hd : ∀ c ∈ ds, c.isDigit = true) :
    stoi (String.mk ds)
      = if -2 ^ 31 ≤ (digitsValue ds : Int) ∧ (digitsValue ds : Int) ≤ 2 ^ 31 - 1
        then some (digitsValue ds : Int) else none := by
  obtain ⟨c, rest, rfl⟩ := List.exists_cons_of_ne_nil hne
  have hc : c.isDigit = true := hd c (List.mem_cons_self _ _)
  have hsp : isSpace c = false := isSpace_of_isDigit c hc
  have hm : c ≠ '-' := by rintro rfl; revert hc; decide
  have hp : c ≠ '+' := by rintro rfl; revert hc; decide
  have htw : (c :: rest).takeWhile Char.isDigit = c :: rest :=
    List.takeWhile_eq_self_iff.mpr hd
  unfold stoi
  simp only [List.dropWhile_cons, hsp, Bool.false_eq_true, if_false]
  have hmatch : ∀ (motive : List Char → Sort 1) (h1 : ∀ r, motive ('-' :: r))
      (h2 : ∀ r, motive ('+' :: r)) (h3 : ∀ r, motive r),
      stoi.match_1 motive (c :: rest) h1 h2 h3 = h3 (c :: rest) := by
    intro motive h1 h2 h3
    rw [stoi.match_1.eq_3]
    · intro r h
      exact hm (List.cons.inj h).1
    · intro r h
      exact hp (List.cons.inj h).1
  simp only [hmatch, htw, Bool.false_eq_true, if_false]
  simp

theorem stoi_neg_digits (ds : List Char) (hne : ds ≠ []) (hd : ∀ c ∈ ds, c.isDigit = true) :
    stoi (String.mk ('-' :: ds))
      = if -2 ^ 31 ≤ -(digitsValue ds : Int) ∧ -(digitsValue ds : Int) ≤ 2 ^ 31 - 1
        then some (-(digitsValue ds : Int)) else none := by
  have htw : ds.takeWhile Char.isDigit = ds := List.takeWhile_eq_self_iff.mpr hd
  have hsp : isSpace '-' = false := by decide
  unfold stoi
  simp only [List.dropWhile_cons, hsp, Bool.false_eq_true, if_false, htw, hne, if_true]

/-- Reading back the decimal text of an `int` gives the `int`. -/
theorem stoi_toString (n : Int) (hlo : -2 ^ 31 ≤ n) (hhi : n ≤ 2 ^ 31 - 1) :
    stoi (toString n) = some n := by
  cases n with
  | ofNat m =>
    show stoi (toString m) = some (Int.ofNat m)
    have := stoi_digits (toString m).data (toString_data_ne_nil m) (toString_isDigit m)
    rw [digitsValue_toString] at this
    rw [show (toString m : String) = String.mk (toString m).data from rfl, this]
    rw [if_pos ⟨hlo, hhi⟩]
    rfl
  | negSucc m =>
    show stoi ("-" ++ toString (m + 1)) = some (Int.negSucc m)
    have := stoi_neg_digits (toString (m + 1)).data (toString_data_ne_nil _)
      (toString_isDigit _)
    rw [digitsValue_toString] at this
    have hs : ("-" ++ toString (m + 1) : String) = String.mk ('-' :: (toString (m + 1)).data) := by
      apply String.ext
      simp
    have he : -((m + 1 : Nat) : Int) = Int.negSucc m := by
      rw [Int.negSucc_eq]; push_cast; ring
    rw [hs, this, he, if_pos ⟨hlo, hhi⟩]

/-! ## Lemmas: sequences of flags -/

theorem isSimpleFlag_ne_slash (t : String) (h : isSimpleFlag t = true) : t ≠ "/" := by
  rintro rfl
  revert h
  decide

/-- A sequence of `+`, `-`, `=` tokens switches on the flags that occur in it
and changes nothing else. -/
theorem parseArguments_simple_flags (ts : List String) :
    (∀ t ∈ ts, isSimpleFlag t = true) → ∀ (cfg : Config) (io : Streams),
    parseArguments ts cfg io
      = .returned
          { cfg with
            verbose := cfg.verbose || decide ("+" ∈ ts),
            showHidden := cfg.showHidden || decide ("-" ∈ ts),
            copyClipboard := cfg.copyClipboard || decide ("=" ∈ ts) }
          io := by
  induction ts with
  | nil => intro _ cfg io; simp [parseArguments]
  | cons t ts ih =>
    intro h cfg io
    have ht : isSimpleFlag t = true := h t (List.mem_cons_self _ _)
    have hts : ∀ u ∈ ts, isSimpleFlag u = true := fun u hu => h u (List.mem_cons_of_mem _ hu)
    rw [parseArguments_cons_ne_slash _ _ _ _ (isSimpleFlag_ne_slash t ht)]
    simp only [isSimpleFlag, Bool.or_eq_true, beq_iff_eq] at ht
    rcases ht with (rfl | rfl) | rfl
    · rw [if_pos rfl, ih hts]
      simp [Bool.or_assoc]
    · rw [if_neg (by decide), if_pos rfl, ih hts]
      simp [Bool.or_assoc]
    · rw [if_neg (by decide), if_neg (by decide), if_pos rfl, ih hts]
      simp [Bool.or_assoc]

theorem wellFormedFlags_cons_simple (t : String) (tl : List String) (h : t ≠ "/") :
    wellFormedFlags (t :: tl) = (isSimpleFlag t && wellFormedFlags tl) := by
  cases tl with
  | nil => simp [wellFormedFlags]
  | cons b rest => simp [wellFormedFlags, h]

/-- Well-formed flags are processed without `exit`: the parser returns, has
written nothing to the output stream, has left the root path alone, and the
sequence does not end in a `/` that waits for its value. -/
theorem wellFormedFlags_returns (n : Nat) : ∀ (pre : List String), pre.length ≤ n →
    wellFormedFlags pre = true → ∀ (cfg : Config) (io : Streams),
    danglingSlash pre = false
      ∧ ∃ (cfg' : Config) (err' : String),
          parseArguments pre cfg io = .returned cfg' { out := io.out, err := err' }
            ∧ cfg'.dirPath = cfg.dirPath := by
  induction n with
  | zero =>
    intro pre hlen _ cfg io
    have : pre = [] := List.length_eq_zero.mp (Nat.le_zero.mp hlen)
    subst this
    exact ⟨rfl, cfg, io.err, rfl, rfl⟩
  | succ n ih =>
    intro pre hlen hwf cfg io
    cases pre with
    | nil => exact ⟨rfl, cfg, io.err, rfl, rfl⟩
    | cons arg tl =>
      have hl : tl.length ≤ n := by simpa using hlen
      by_cases h1 : arg = "/"
      · subst h1
        cases tl with
        | nil => simp [wellFormedFlags, isSimpleFlag] at hwf
        | cons v tl2 =>
          have hl2 : tl2.length ≤ n := by
            simp only [List.length_cons] at hl
            omega
          have hwf2 : wellFormedFlags tl2 = true := by simpa [wellFormedFlags] using hwf
          rw [danglingSlash_slash_cons]
          simp only [parseArguments, if_true]
          cases hs : stoi v with
          | none =>
            obtain ⟨hd, cfg', err', hp, hdir⟩ := ih tl2 hl2 hwf2 { cfg with maxDepth := -1 }
              { io with err := io.err ++ invalidDepthMessage }
            exact ⟨hd, cfg', err', hp, hdir⟩
          | some k =>
            obtain ⟨hd, cfg', err', hp, hdir⟩ := ih tl2 hl2 hwf2 { cfg with maxDepth := k } io
            exact ⟨hd, cfg', err', hp, hdir⟩
      · rw [wellFormedFlags_cons_simple arg tl h1, Bool.and_eq_true] at hwf
        rw [danglingSlash_cons_ne arg tl h1, parseArguments_cons_ne_slash _ _ _ _ h1]
        have ht := hwf.1
        simp only [isSimpleFlag, Bool.or_eq_true, beq_iff_eq] at ht
        rcases ht with (rfl | rfl) | rfl
        · rw [if_pos rfl]
          exact ih tl hl hwf.2 _ io
        · rw [if_neg (by decide), if_pos rfl]
          exact ih tl hl hwf.2 _ io
        · rw [if_neg (by decide), if_neg (by decide), if_pos rfl]
          exact ih tl hl hwf.2 _ io

theorem parseArguments_help (post : List String) (cfg : Config) (io : Streams) :
    parseArguments ("h" :: post) cfg io = .exited 0 (printUsage io) := by
  rw [parseArguments_cons_ne_slash _ _ _ _ (by decide)]
  rw [if_neg (by decide), if_neg (by decide), if_neg (by decide), if_pos rfl]

/-! ## Lemmas: failing size queries and invalid roots -/

theorem getFileSize_of_query_fails (node : Node) (h : node.file_size = none) :
    getFileSize node = "Unknown Size" := by
  simp [getFileSize, h]

theorem walkEntries_append (dirPath : String) (xs ys : List (String × Node)) (level : Nat)
    (md : Int) (sh vb : Bool) :
    walkEntries dirPath (xs ++ ys) level md sh vb
      = walkEntries dirPath xs level md sh vb ++ walkEntries dirPath ys level md sh vb := by
  induction xs with
  | nil => simp [walkEntries]
  | cons x xs ih =>
    obtain ⟨name, child⟩ := x
    rw [List.cons_append]
    simp only [walkEntries]
    rw [ih, String.append_assoc]

theorem quoted_no_newline (s : String) (h : '\n' ∉ s.data) : '\n' ∉ (quoted s).data := by
  intro hm
  simp only [quoted, List.cons_append, List.mem_cons, List.mem_append, List.mem_flatMap,
    List.mem_singleton, List.not_mem_nil, or_false] at hm
  rcases hm with hm | ⟨c, hc, hm⟩ | hm
  · revert hm; decide
  · split_ifs at hm with hq
    · simp only [List.mem_cons, List.mem_singleton, List.not_mem_nil, or_false] at hm
      rcases hm with hm | hm
      · revert hm; decide
      · exact h (hm ▸ hc)
    · simp only [List.mem_singleton] at hm
      exact h (hm ▸ hc)
  · revert hm; decide

theorem getFolderStructure_invalid (dirPath : String) (node : Node) (level : Nat) (md : Int)
    (sh vb : Bool) (h : (!node.fsExists || !node.is_directory) = true) :
    getFolderStructure dirPath node level md sh vb
      = "Invalid directory path: " ++ quoted dirPath ++ "\n" := by
  cases node with
  | missing => simp [getFolderStructure]
  | file size => simp [getFolderStructure]
  | dir es => simp [Node.fsExists, Node.is_directory] at h

/-! ## Lemmas: how large the number shown can be -/

/-- The number printed for a quotient below 1024 is at most 1024.00, and below
1024 when the quotient is below 1023.995. -/
theorem fixed2_below_limit (b den : Nat) (hden : 0 < den) (hb : b < 1024 * den) :
    ∃ ip d1 d2 : Nat, d1 < 10 ∧ d2 < 10
      ∧ fixed2 b den
          = toString ip ++ "." ++ String.mk [Nat.digitChar d1, Nat.digitChar d2]
      ∧ (ip : ℚ) + (10 * d1 + d2 : ℚ) / 100 ≤ 1024
      ∧ ((b : ℚ) / den < 1023995 / 1000 → (ip : ℚ) + (10 * d1 + d2 : ℚ) / 100 < 1024) := by
  refine ⟨hundredths b den / 100, hundredths b den % 100 / 10, hundredths b den % 100 % 10,
    Nat.div_lt_of_lt_mul (Nat.mod_lt _ (by decide)), Nat.mod_lt _ (by decide), rfl, ?_, ?_⟩
  · obtain ⟨h1, _⟩ := roundHalfEven_near (100 * b) den hden
    have hm : hundredths b den ≤ 102400 := by
      have h1' : 2 * (hundredths b den * den) ≤ 2 * (100 * b) + den := h1
      by_contra hcon
      have h3 : 102401 * den ≤ hundredths b den * den :=
        Nat.mul_le_mul_right den (by omega)
      omega
    have hsum : 100 * (hundredths b den / 100)
        + (10 * (hundredths b den % 100 / 10) + hundredths b den % 100 % 10) ≤ 102400 := by
      omega
    have hq : (100 : ℚ) * ((hundredths b den / 100 : Nat) : ℚ)
        + (10 * ((hundredths b den % 100 / 10 : Nat) : ℚ)
            + ((hundredths b den % 100 % 10 : Nat) : ℚ)) ≤ 102400 := by
      exact_mod_cast hsum
    linarith
  · intro hlt
    obtain ⟨h1, _⟩ := roundHalfEven_near (100 * b) den hden
    have hdq : (0 : ℚ) < den := by exact_mod_cast hden
    have hbq : (b : ℚ) * 1000 < 1023995 * den := by
      have hx : (b : ℚ) / den * den = b := div_mul_cancel₀ _ (ne_of_gt hdq)
      have := mul_lt_mul_of_pos_right hlt hdq
      rw [hx] at this
      linarith
    have hbn : b * 1000 < 1023995 * den := by exact_mod_cast hbq
    have hm : hundredths b den < 102400 := by
      have h1' : 2 * (hundredths b den * den) ≤ 2 * (100 * b) + den := h1
      by_contra hcon
      have h3 : 102400 * den ≤ hundredths b den * den :=
        Nat.mul_le_mul_right den (by omega)
      omega
    have hsum : 100 * (hundredths b den / 100)
        + (10 * (hundredths b den % 100 / 10) + hundredths b den % 100 % 10) < 102400 := by
      omega
    have hq : (100 : ℚ) * ((hundredths b den / 100 : Nat) : ℚ)
        + (10 * ((hundredths b den % 100 / 10 : Nat) : ℚ)
            + ((hundredths b den % 100 % 10 : Nat) : ℚ)) < 102400 := by
      exact_mod_cast hsum
    linarith

/-! ## Lemmas: comparing reports -/

theorem withinDepth_of_le_neg_two (md : Int) (h : md ≤ -2) (k : Nat) :
    withinDepth md k = withinDepth 0 k := by
  rw [Bool.eq_iff_iff]
  simp only [withinDepth, Bool.or_eq_true, beq_iff_eq, decide_eq_true_eq]
  omega

theorem listing_of_le_neg_two (es : List (String × Node)) (md : Int) (h : md ≤ -2) (sh : Bool) :
    listing es md sh = listing es 0 sh := by
  unfold listing
  apply List.filter_congr
  intro i _
  simp only [shown, withinDepth_of_le_neg_two md h]

theorem withinDepth_succ (N : Nat) (k : Nat) (h : withinDepth (N : Int) k = true) :
    withinDepth ((N : Int) + 1) k = true := by
  simp only [withinDepth, Bool.or_eq_true, beq_iff_eq, decide_eq_true_eq] at h ⊢
  omega

theorem listing_sublist (es : List (String × Node)) (md1 md2 : Int) (sh : Bool)
    (h : ∀ k, withinDepth md1 k = true → withinDepth md2 k = true) :
    (listing es md1 sh).Sublist (listing es md2 sh) := by
  unfold listing
  apply List.monotone_filter_right
  intro i hi
  simp only [shown, Bool.and_eq_true] at hi ⊢
  exact ⟨hi.1, h _ hi.2⟩

theorem listing_names (es : List (String × Node)) (md : Int) (sh : Bool)
    (h : ∀ i ∈ preorder [] es, '\n' ∉ i.name.data) :
    ∀ i ∈ listing es md sh, '\n' ∉ i.name.data :=
  fun i hi => h i (List.mem_filter.mp hi).1

theorem getFileType_no_bracket (c : Char) (hc : c = '[' ∨ c = ']') (path : String) :
    c ∉ (getFileType path).data := by
  by_cases h : extension path ∈ fileTypes.map Prod.fst
  · obtain ⟨kv, hkv, he⟩ := List.mem_map.mp h
    have hl : getFileType path = kv.2 := getFileType_of_mem path kv.2 (by rw [← he]; exact hkv)
    rw [hl]
    have hall : ∀ kv ∈ fileTypes, c ∉ kv.2.data := by
      rcases hc with rfl | rfl <;> decide
    exact hall kv hkv
  · rw [getFileType_of_not_mem path h]
    rcases hc with rfl | rfl <;> decide

theorem getFileSize_no_bracket (c : Char) (hc : c = '[' ∨ c = ']') (node : Node) :
    c ∉ (getFileSize node).data := by
  have hdig : c.isDigit = false := by rcases hc with rfl | rfl <;> decide
  have hdot : c ≠ '.' := by rcases hc with rfl | rfl <;> decide
  unfold getFileSize
  cases node.file_size with
  | none => rcases hc with rfl | rfl <;> decide
  | some size =>
    have hu : ∀ (num den : Nat) (u : String), c ∉ u.data → c ∉ (fixed2 num den ++ u).data := by
      intro num den u hu hm
      simp only [String.data_append, List.mem_append] at hm
      rcases hm with hm | hm
      · have hn := fixed2_isNumeric num den
        simp only [isNumeric, List.all_eq_true, Bool.or_eq_true, beq_iff_eq] at hn
        rcases hn _ hm with hd | hd
        · rw [hdig] at hd
          exact absurd hd (by decide)
        · exact hdot hd
      · exact hu hm
    simp only
    split_ifs
    · intro hm
      simp only [String.data_append, List.mem_append] at hm
      rcases hm with hm | hm
      · have := toString_isDigit size _ hm
        rw [hdig] at this
        exact absurd this (by decide)
      · revert hm
        rcases hc with rfl | rfl <;> decide
    · exact hu _ _ _ (by rcases hc with rfl | rfl <;> decide)
    · exact hu _ _ _ (by rcases hc with rfl | rfl <;> decide)
    · exact hu _ _ _ (by rcases hc with rfl | rfl <;> decide)

/-- The verbose annotation is one bracketed text: ` [`, an inner text without
brackets or newline, `]`. -/
theorem Item.annotation_bracketed (i : Item) :
    ∃ inner : String, i.annotation true = " [" ++ inner ++ "]"
      ∧ '[' ∉ inner.data ∧ ']' ∉ inner.data ∧ '\n' ∉ inner.data := by
  cases hd : i.node.is_directory with
  | true =>
    refine ⟨"Directory", ?_, by decide, by decide, by decide⟩
    simp [Item.annotation, hd]
  | false =>
    have hpart : ∀ c : Char, c ∉ (getFileType i.name).data → c ∉ (", " : String).data →
        c ∉ (getFileSize i.node).data →
        c ∉ (getFileType i.name ++ ", " ++ getFileSize i.node).data := by
      intro c h1 h2 h3 hm
      simp only [String.data_append, List.mem_append] at hm
      rcases hm with (hm | hm) | hm
      · exact h1 hm
      · exact h2 hm
      · exact h3 hm
    refine ⟨getFileType i.name ++ ", " ++ getFileSize i.node, ?_, ?_, ?_, ?_⟩
    · simp [Item.annotation, hd, String.append_assoc]
    · exact hpart _ (getFileType_no_bracket _ (Or.inl rfl) _) (by decide)
        (getFileSize_no_bracket _ (Or.inl rfl) _)
    · exact hpart _ (getFileType_no_bracket _ (Or.inr rfl) _) (by decide)
        (getFileSize_no_bracket _ (Or.inr rfl) _)
    · exact hpart _ (getFileType_no_newline _) (by decide) (getFileSize_no_newline _)

/-! ## Lemmas: hidden names -/

/-- `isHidden` holds exactly when the file name of the path begins with a dot. -/
theorem isHidden_iff (path : String) :
    isHidden path = true ↔ (filenameOf path).data.head? = some '.' := by
  unfold isHidden
  cases (filenameOf path).data with
  | nil => simp
  | cons c cs => simp

/-- A name without `/` is its own file name. -/
theorem filenameOf_of_no_slash (name : String) (h : '/' ∉ name.data) :
    filenameOf name = name := by
  unfold filenameOf
  rw [lastComponent_of_no_slash _ h]

theorem isHidden_iff_of_no_slash (name : String) (h : '/' ∉ name.data) :
    isHidden name = true ↔ name.data.head? = some '.' := by
  rw [isHidden_iff, filenameOf_of_no_slash name h]

mutual
theorem Node.items_ancestors : ∀ (n : Node) (anc : List String) (i : Item),
    i ∈ n.items anc → ∀ a ∈ i.ancestors, a ∈ anc ∨ ∃ j ∈ n.items anc, j.name = a
  | .missing, anc, i, h => by simp [Node.items] at h
  | .file _, anc, i, h => by simp [Node.items] at h
  | .dir es, anc, i, h => by
    simp only [Node.items] at h ⊢
    exact preorder_ancestors es anc i h
theorem preorder_ancestors : ∀ (es : List (String × Node)) (anc : List String) (i : Item),
    i ∈ preorder anc es → ∀ a ∈ i.ancestors, a ∈ anc ∨ ∃ j ∈ preorder anc es, j.name = a
  | [], anc, i, h => by simp [preorder] at h
  | (name, child) :: rest, anc, i, h => by
    intro a ha
    simp only [preorder, List.mem_cons, List.mem_append] at h
    rcases h with rfl | h | h
    · exact Or.inl ha
    · rcases Node.items_ancestors child (anc ++ [name]) i h a ha with hm | ⟨j, hj, hn⟩
      · rcases List.mem_append.mp hm with hm | hm
        · exact Or.inl hm
        · right
          refine ⟨⟨anc, name, child⟩, ?_, ?_⟩
          · simp [preorder]
          · simpa using (List.mem_singleton.mp hm).symm
      · right
        refine ⟨j, ?_, hn⟩
        simp only [preorder, List.mem_cons, List.mem_append]
        exact Or.inr (Or.inl hj)
    · rcases preorder_ancestors rest anc i h a ha with hm | ⟨j, hj, hn⟩
      · exact Or.inl hm
      · right
        refine ⟨j, ?_, hn⟩
        simp only [preorder, List.mem_cons, List.mem_append]
        exact Or.inr (Or.inr hj)
end

/-- Every directory above an entry of the tree is itself an entry of the tree. -/
theorem ancestors_are_entries (es : List (String × Node)) (i : Item)
    (h : i ∈ preorder [] es) : ∀ a ∈ i.ancestors, ∃ j ∈ preorder [] es, j.name = a := by
  intro a ha
  rcases preorder_ancestors es [] i h a ha with hm | hj
  · simp at hm
  · exact hj

/-! ## Lemmas: the root path and the calls that fail -/

theorem getFolderStructureExc_resolved (dirPath : String) (node : Node) (level : Nat)
    (md : Int) (sh vb : Bool) :
    getFolderStructureExc dirPath (.resolved node) level md sh vb
      = some (getFolderStructure dirPath node level md sh vb) := rfl

theorem getFolderStructureExc_failed (dirPath : String) (level : Nat) (md : Int)
    (sh vb : Bool) :
    getFolderStructureExc dirPath .failed level md sh vb = none := rfl

/-- When the status query succeeds and finds nothing, or something that is not
a directory, the call returns the one diagnostic line. -/
theorem getFolderStructureExc_invalid (dirPath : String) (node : Node) (level : Nat)
    (md : Int) (sh vb : Bool) (h : (!node.fsExists || !node.is_directory) = true) :
    getFolderStructureExc dirPath (.resolved node) level md sh vb
      = some ("Invalid directory path: " ++ quoted dirPath ++ "\n") := by
  rw [getFolderStructureExc_resolved, getFolderStructure_invalid _ _ _ _ _ _ h]

/-- A run in which no call fails is the run `main` describes. -/
theorem mainExc_eq_main (env : Environment) (cwd : String) (resolve : String → Node)
    (argv : List String) (hcwd : env.currentPath = some cwd)
    (hstatus : ∀ p, env.status p = .resolved (resolve p)) (hpipe : env.pipe ≠ .broken) :
    mainExc env argv
      = .finished (main ⟨cwd, resolve, env.platform, decide (env.pipe = .accepts)⟩ argv) := by
  unfold mainExc main initialConfig
  simp only [hcwd, hstatus, getFolderStructureExc_resolved]
  cases hp : parseArguments (List.drop 1 argv)
      { dirPath := cwd, maxDepth := -1, showHidden := false, verbose := false,
        copyClipboard := false }
      { out := "", err := "" } with
  | exited code io => rfl
  | returned cfg io =>
    simp only
    cases hc : cfg.copyClipboard with
    | false => simp
    | true =>
      simp only [if_true, copyToClipboard]
      cases hpl : env.platform <;> cases hpi : env.pipe <;> simp_all

/-! ## Claims -/

/-- C1 (the code fails it): a first bare token should become the root path,
but `main` has already set the path to the current directory, so the parser
rejects the token: for the command line `lsd docs` run in `/home/user` the
program writes `Unknown argument: docs` to the error stream and the usage text
to the output stream, exits with code 1 and walks nothing. -/
theorem main_rejects_first_bare_token :
    main ⟨"/home/user", fun _ => .dir [("a.txt", .file (some 500))], .linux, true⟩
        ["lsd", "docs"]
      = { exitCode := 1, out := usage, err := "Unknown argument: docs\n", walked := none,
          clipboard := none } := by
  rfl

/-- C2: with `maxDepth = N ≥ 0` a level-0 call prints exactly the lines of the
listed entries, each indented by its level in tabs; every listed entry has
level at most `N`; every entry of level `N` that passes the hidden-file rule
is listed and no entry of a deeper level is (so a directory at level `N` is
listed and not expanded); for `N = 0` the listing is the root's visible direct
entries, for `N = 1` each visible direct entry followed by its visible
children.  When no file name holds a newline or starts with a tab, every line
of the report text starts with at most `N` tabs. -/
theorem depth_limit (dirPath : String) (entries : List (String × Node)) (N : Nat)
    (showHidden verbose : Bool) :
    getFolderStructure dirPath (.dir entries) 0 (N : Int) showHidden verbose
        = concat ((listing entries N showHidden).map fun i =>
            tabs i.level ++ i.name
              ++ (if verbose then
                    (if i.node.is_directory then " [Directory]"
                     else " [" ++ getFileType i.name ++ ", " ++ getFileSize i.node ++ "]")
                  else "")
              ++ "\n")
    ∧ (∀ level : Nat, (tabs level).data = List.replicate level '\t')
    ∧ (∀ i ∈ listing entries N showHidden, i.level ≤ N)
    ∧ (∀ i ∈ preorder [] entries, i.level = N → (showHidden || !i.hiddenPath) = true →
        i ∈ listing entries N showHidden)
    ∧ (∀ i ∈ preorder [] entries, N < i.level → i ∉ listing entries N showHidden)
    ∧ listing entries (0 : Nat) showHidden
        = (entries.filter (fun e => visibleName showHidden e.1)).map (fun e => ⟨[], e.1, e.2⟩)
    ∧ listing entries (1 : Nat) showHidden
        = (entries.filter (fun e => visibleName showHidden e.1)).flatMap (fun e =>
            ⟨[], e.1, e.2⟩
              :: (e.2.children.filter (fun c => visibleName showHidden c.1)).map
                  (fun c => ⟨[e.1], c.1, c.2⟩))
    ∧ ((∀ i ∈ preorder [] entries, '\n' ∉ i.name.data ∧ i.name.data.head? ≠ some '\t') →
        ∀ l ∈ textLines
            (getFolderStructure dirPath (.dir entries) 0 (N : Int) showHidden verbose).data,
          leadingTabs l ≤ N) := by
  have hlevel : ∀ i ∈ listing entries N showHidden, i.level ≤ N := by
    intro i hi
    have h := (List.mem_filter.mp hi).2
    simp only [shown, withinDepth, Bool.and_eq_true, Bool.or_eq_true, beq_iff_eq,
      decide_eq_true_eq] at h
    rcases h.2 with (h | h) | h
    · omega
    · omega
    · exact_mod_cast h
  refine ⟨?_, fun _ => rfl, hlevel, ?_, ?_, ?_, ?_, ?_⟩
  · rw [getFolderStructure_root]
    rfl
  · intro i hi hl hv
    refine List.mem_filter.mpr ⟨hi, ?_⟩
    simp only [shown, withinDepth, Bool.and_eq_true, Bool.or_eq_true, beq_iff_eq,
      decide_eq_true_eq]
    refine ⟨by simpa using hv, Or.inr ?_⟩
    exact_mod_cast hl.le
  · intro i _ hl hi
    have := hlevel i hi
    omega
  · exact listing_depth_zero entries showHidden
  · exact listing_depth_one entries showHidden
  · intro hnames l hl
    have hsub : ∀ i ∈ listing entries N showHidden, i ∈ preorder [] entries :=
      fun i hi => (List.mem_filter.mp hi).1
    rw [getFolderStructure_root,
      textLines_render verbose _ (fun i hi => (hnames i (hsub i hi)).1)] at hl
    obtain ⟨i, hi, rfl⟩ := List.mem_map.mp hl
    rw [leadingTabs_body verbose i (hnames i (hsub i hi)).2]
    exact hlevel i hi

/-- Witness for C2: a root with `a.txt`, `.git` (holding `config`) and `sub`
(holding `b.py` and `deep`, which holds `c.md`), at depth 1 without hidden
entries: no line of the report starts with more than one tab. -/
theorem depth_limit_witness :
    ∀ l ∈ textLines
        (getFolderStructure "."
          (.dir [("a.txt", .file (some 500)), (".git", .dir [("config", .file (some 92))]),
            ("sub", .dir [("b.py", .file (some 2048)), ("deep", .dir [("c.md", .file none)])])])
          0 ((1 : Nat) : Int) false true).data,
      leadingTabs l ≤ 1 :=
  (depth_limit "."
      [("a.txt", .file (some 500)), (".git", .dir [("config", .file (some 92))]),
        ("sub", .dir [("b.py", .file (some 2048)), ("deep", .dir [("c.md", .file none)])])]
      1 false true).2.2.2.2.2.2.2
    (by decide)

/-- C3: `isHidden` holds exactly when the file name of a path begins with a
dot, and a name without `/` is its own file name.  Without `showHidden` no
listed entry has a file name beginning with a dot or lies below a directory
with such a name: for a tree whose entry names hold no `/` (as every directory
entry's name) no listed name and no name of a directory above a listed entry
begins with a dot.  With `showHidden` every entry of the tree whose name
begins with a dot and whose level is within the depth limit is listed.  In
both cases the report is exactly the lines of the listed entries; for a root
with `a.txt`, `.git` (holding `config`) and `sub` (holding `.cache` and
`b.py`) the two reports are as shown. -/
theorem hidden_filtering (dirPath : String) (entries : List (String × Node)) (maxDepth : Int)
    (verbose : Bool) :
    (getFolderStructure dirPath (.dir entries) 0 maxDepth false verbose
        = render verbose (listing entries maxDepth false)
      ∧ ∀ i ∈ listing entries maxDepth false,
          isHidden i.name = false ∧ ∀ a ∈ i.ancestors, isHidden a = false)
    ∧ (getFolderStructure dirPath (.dir entries) 0 maxDepth true verbose
        = render verbose (listing entries maxDepth true)
      ∧ ∀ i ∈ preorder [] entries, isHidden i.name = true →
          withinDepth maxDepth i.level = true → i ∈ listing entries maxDepth true)
    ∧ (∀ path : String, isHidden path = true ↔ (filenameOf path).data.head? = some '.')
    ∧ (∀ name : String, '/' ∉ name.data → filenameOf name = name)
    ∧ (∀ i ∈ listing entries maxDepth false,
        (filenameOf i.name).data.head? ≠ some '.'
          ∧ ∀ a ∈ i.ancestors, (filenameOf a).data.head? ≠ some '.')
    ∧ ((∀ i ∈ preorder [] entries, '/' ∉ i.name.data) →
        ∀ i ∈ listing entries maxDepth false,
          i.name.data.head? ≠ some '.' ∧ ∀ a ∈ i.ancestors, a.data.head? ≠ some '.')
    ∧ (∀ i ∈ preorder [] entries, i.name.data.head? = some '.' →
        withinDepth maxDepth i.level = true → i ∈ listing entries maxDepth true)
    ∧ getFolderStructure dirPath
          (.dir [("a.txt", .file (some 500)), (".git", .dir [("config", .file (some 92))]),
            ("sub", .dir [(".cache", .file none), ("b.py", .file (some 2048))])])
          0 (-1) false false
        = "a.txt\nsub\n\tb.py\n"
    ∧ getFolderStructure dirPath
          (.dir [("a.txt", .file (some 500)), (".git", .dir [("config", .file (some 92))]),
            ("sub", .dir [(".cache", .file none), ("b.py", .file (some 2048))])])
          0 (-1) true false
        = "a.txt\n.git\n\tconfig\nsub\n\t.cache\n\tb.py\n" := by
  have hlisted : ∀ i ∈ listing entries maxDepth false,
      isHidden i.name = false ∧ ∀ a ∈ i.ancestors, isHidden a = false := by
    intro i hi
    have h := (List.mem_filter.mp hi).2
    simp only [shown, Item.hiddenPath, Bool.false_or, Bool.and_eq_true, Bool.not_eq_true',
      Bool.or_eq_false_iff, List.any_eq_false] at h
    refine ⟨h.1.2, fun a ha => ?_⟩
    simpa using h.1.1 a ha
  have hnot : ∀ p : String, isHidden p = false → (filenameOf p).data.head? ≠ some '.' := by
    intro p hp hd
    rw [(isHidden_iff p).mpr hd] at hp
    exact absurd hp (by decide)
  have hall : ∀ i ∈ preorder [] entries, withinDepth maxDepth i.level = true →
      i ∈ listing entries maxDepth true := by
    intro i hi hd
    exact List.mem_filter.mpr ⟨hi, by simp [shown, hd]⟩
  refine ⟨⟨getFolderStructure_root _ _ _ _ _, hlisted⟩,
    ⟨getFolderStructure_root _ _ _ _ _, fun i hi _ hd => hall i hi hd⟩,
    isHidden_iff, filenameOf_of_no_slash, ?_, ?_, fun i hi _ hd => hall i hi hd, ?_, ?_⟩
  · intro i hi
    obtain ⟨h1, h2⟩ := hlisted i hi
    exact ⟨hnot _ h1, fun a ha => hnot _ (h2 a ha)⟩
  · intro hnames i hi
    obtain ⟨h1, h2⟩ := hlisted i hi
    have hmem : i ∈ preorder [] entries := (List.mem_filter.mp hi).1
    refine ⟨?_, fun a ha => ?_⟩
    · have := hnot _ h1
      rwa [filenameOf_of_no_slash _ (hnames i hmem)] at this
    · obtain ⟨j, hj, hn⟩ := ancestors_are_entries entries i hmem a ha
      have hs : '/' ∉ a.data := hn ▸ hnames j hj
      have := hnot _ (h2 a ha)
      rwa [filenameOf_of_no_slash _ hs] at this
  · rw [getFolderStructure_root]
    decide
  · rw [getFolderStructure_root]
    decide

/-- Witness for C3: in the tree of the C3 example no listed name and no name
of a directory above a listed entry begins with a dot. -/
theorem hidden_filtering_witness :
    ∀ i ∈ listing
        [("a.txt", .file (some 500)), (".git", .dir [("config", .file (some 92))]),
          ("sub", .dir [(".cache", .file none), ("b.py", .file (some 2048))])]
        (-1) false,
      i.name.data.head? ≠ some '.' ∧ ∀ a ∈ i.ancestors, a.data.head? ≠ some '.' :=
  (hidden_filtering "."
      [("a.txt", .file (some 500)), (".git", .dir [("config", .file (some 92))]),
        ("sub", .dir [(".cache", .file none), ("b.py", .file (some 2048))])]
      (-1) false).2.2.2.2.2.1
    (by decide)

/-- C4: the unit of the size text follows the thresholds: below 1024 the text
is the decimal byte count and ` B`; from 1024 up to `1024^2` it is a number
(digits and a point) and ` KB`; from `1024^2` up to `1024^3` a number and
` MB`; from `1024^3` on a number and ` GB`; the exact boundaries give
`1.00 KB`, `1.00 MB` and `1.00 GB`. -/
theorem getFileSize_unit (b : Nat) :
    (b < 1024 → getFileSize (.file (some b)) = toString b ++ " B")
    ∧ (1024 ≤ b → b < 1024 ^ 2 →
        ∃ num, isNumeric num = true ∧ getFileSize (.file (some b)) = num ++ " KB")
    ∧ (1024 ^ 2 ≤ b → b < 1024 ^ 3 →
        ∃ num, isNumeric num = true ∧ getFileSize (.file (some b)) = num ++ " MB")
    ∧ (1024 ^ 3 ≤ b →
        ∃ num, isNumeric num = true ∧ getFileSize (.file (some b)) = num ++ " GB")
    ∧ getFileSize (.file (some 1024)) = "1.00 KB"
    ∧ getFileSize (.file (some (1024 ^ 2))) = "1.00 MB"
    ∧ getFileSize (.file (some (1024 ^ 3))) = "1.00 GB" := by
  refine ⟨getFileSize_small b, ?_, ?_, ?_, by decide, by decide, by decide⟩
  · intro h1 h2
    exact ⟨_, fixed2_isNumeric _ _, getFileSize_KB b h1 h2⟩
  · intro h1 h2
    exact ⟨_, fixed2_isNumeric _ _, getFileSize_MB b h1 h2⟩
  · intro h1
    exact ⟨_, fixed2_isNumeric _ _, getFileSize_GB b h1⟩

/-- C5 as stated fails: a file of 4611686018604555775 bytes (`2^62` and a
little) is shown as `4294967296.16 GB`, while its size in GB exceeds
4294967296.165, more than 0.005 above the number shown: the byte count is
rounded to a `double` before it is divided. -/
theorem getFileSize_error_above_half_cent :
    getFileSize (.file (some 4611686018604555775)) = "4294967296.16 GB"
      ∧ (5 : ℚ) / 1000
          < |((4294967296 : ℚ) + (10 * 1 + 6 : ℚ) / 100)
              - (4611686018604555775 : ℚ) / 1024 ^ 3| := by
  refine ⟨by decide, ?_⟩
  rw [lt_abs]
  right
  norm_num

/-- C5 (amended): for a byte count `b` with `1024 ≤ b < 2^53` the number shown
is an integer part, a point and exactly two decimal digits, and its value is
within 0.005 of `b / 1024^k` (`k` = 1, 2, 3 for KB, MB, GB); for `b < 1024`
the text is the integer `b` and ` B`, without a decimal point. -/
theorem getFileSize_two_decimals (b : Nat) (h53 : b < 2 ^ 53) :
    (b < 1024 →
        getFileSize (.file (some b)) = toString b ++ " B"
          ∧ '.' ∉ (getFileSize (.file (some b))).data)
    ∧ (1024 ≤ b → b < 1024 ^ 2 →
        ∃ ip d1 d2 : Nat, d1 < 10 ∧ d2 < 10
          ∧ getFileSize (.file (some b))
              = toString ip ++ "." ++ String.mk [Nat.digitChar d1, Nat.digitChar d2] ++ " KB"
          ∧ |((ip : ℚ) + (10 * d1 + d2 : ℚ) / 100) - (b : ℚ) / 1024| ≤ 5 / 1000)
    ∧ (1024 ^ 2 ≤ b → b < 1024 ^ 3 →
        ∃ ip d1 d2 : Nat, d1 < 10 ∧ d2 < 10
          ∧ getFileSize (.file (some b))
              = toString ip ++ "." ++ String.mk [Nat.digitChar d1, Nat.digitChar d2] ++ " MB"
          ∧ |((ip : ℚ) + (10 * d1 + d2 : ℚ) / 100) - (b : ℚ) / 1024 ^ 2| ≤ 5 / 1000)
    ∧ (1024 ^ 3 ≤ b →
        ∃ ip d1 d2 : Nat, d1 < 10 ∧ d2 < 10
          ∧ getFileSize (.file (some b))
              = toString ip ++ "." ++ String.mk [Nat.digitChar d1, Nat.digitChar d2] ++ " GB"
          ∧ |((ip : ℚ) + (10 * d1 + d2 : ℚ) / 100) - (b : ℚ) / 1024 ^ 3| ≤ 5 / 1000)
    ∧ getFileSize (.file (some 500)) = "500 B"
    ∧ getFileSize (.file (some 2048)) = "2.00 KB" := by
  refine ⟨?_, ?_, ?_, ?_, by decide, by decide⟩
  · intro h
    rw [getFileSize_small b h]
    refine ⟨rfl, ?_⟩
    intro hc
    simp only [String.data_append, List.mem_append] at hc
    rcases hc with hc | hc
    · have := toString_isDigit b _ hc
      revert this
      decide
    · revert hc
      decide
  · intro h1 h2
    obtain ⟨ip, d1, d2, hd1, hd2, he, hb⟩ := fixed2_near b 1024 (by decide)
    refine ⟨ip, d1, d2, hd1, hd2, ?_, by simpa using hb⟩
    rw [getFileSize_KB b h1 h2, toDouble_exact b h53, he]
  · intro h1 h2
    obtain ⟨ip, d1, d2, hd1, hd2, he, hb⟩ := fixed2_near b (1024 * 1024) (by decide)
    refine ⟨ip, d1, d2, hd1, hd2, ?_, ?_⟩
    · rw [getFileSize_MB b h1 h2, toDouble_exact b h53, he]
    · have e : ((1024 * 1024 : Nat) : ℚ) = 1024 ^ 2 := by norm_num
      rw [e] at hb
      exact hb
  · intro h1
    obtain ⟨ip, d1, d2, hd1, hd2, he, hb⟩ := fixed2_near b (1024 * 1024 * 1024) (by decide)
    refine ⟨ip, d1, d2, hd1, hd2, ?_, ?_⟩
    · rw [getFileSize_GB b h1, toDouble_exact b h53, he]
    · have e : ((1024 * 1024 * 1024 : Nat) : ℚ) = 1024 ^ 3 := by norm_num
      rw [e] at hb
      exact hb

/-- Witness for C5 (amended), at 2048 bytes. -/
theorem getFileSize_two_decimals_witness :
    2048 < 2 ^ 53
      ∧ ∃ ip d1 d2 : Nat, d1 < 10 ∧ d2 < 10
          ∧ getFileSize (.file (some 2048))
              = toString ip ++ "." ++ String.mk [Nat.digitChar d1, Nat.digitChar d2] ++ " KB"
          ∧ |((ip : ℚ) + (10 * d1 + d2 : ℚ) / 100) - ((2048 : Nat) : ℚ) / 1024| ≤ 5 / 1000 :=
  ⟨by norm_num, (getFileSize_two_decimals 2048 (by norm_num)).2.1 (by norm_num) (by norm_num)⟩

/-- C6: for every path, `getFileType` never takes its exception channel; the
keys of the table are distinct; when the extension of the path (with its dot)
is a key, the
result is the label the table gives it; for every other extension, the empty
one included, the result is `Unknown File Type`; `.txt` gives `Text File` and
`.py` gives `Python`. -/
theorem getFileType_table (path : String) :
    getFileTypeExc path = some (getFileType path)
    ∧ (fileTypes.map Prod.fst).Nodup
    ∧ (∀ label, (extension path, label) ∈ fileTypes → getFileType path = label)
    ∧ (extension path ∉ fileTypes.map Prod.fst →
        getFileType path = "Unknown File Type")
    ∧ (extension path = "" → getFileType path = "Unknown File Type")
    ∧ (extension path = ".txt" → getFileType path = "Text File")
    ∧ (extension path = ".py" → getFileType path = "Python") := by
  refine ⟨getFileTypeExc_eq_some path, fileTypes_keys_nodup,
    getFileType_of_mem path, getFileType_of_not_mem path, ?_, ?_, ?_⟩
  · intro h
    apply getFileType_of_not_mem
    rw [h]
    decide
  · intro h
    apply getFileType_of_mem
    rw [h]
    decide
  · intro h
    apply getFileType_of_mem
    rw [h]
    decide

/-- Witness for C6, at the file names `notes.txt` and `Makefile`. -/
theorem getFileType_table_witness :
    getFileType "notes.txt" = "Text File" ∧ getFileType "Makefile" = "Unknown File Type" :=
  ⟨(getFileType_table "notes.txt").2.2.2.2.2.1 (by decide),
   (getFileType_table "Makefile").2.2.2.2.1 (by decide)⟩

/-- C7: the report of a level-0 call is the concatenation, over the listed
entries in order, of one line each: as many tabs as the entry's level, the
file name, then only for verbose output ` [Directory]` for a directory or
` [<type>, <size>]` for a file, then the end of line.  For a root with `a.txt`
(500 bytes) and `sub` holding `b.py` (2048 bytes), verbose and unbounded, the
report is the three lines of the example. -/
theorem line_format (dirPath : String) (entries : List (String × Node)) (maxDepth : Int)
    (showHidden verbose : Bool) :
    getFolderStructure dirPath (.dir entries) 0 maxDepth showHidden verbose
        = concat ((listing entries maxDepth showHidden).map (Item.line verbose))
    ∧ (∀ i : Item, Item.line false i = tabs i.level ++ i.name ++ "\n")
    ∧ (∀ i : Item, i.node.is_directory = true →
        Item.line true i = tabs i.level ++ i.name ++ " [Directory]" ++ "\n")
    ∧ (∀ i : Item, i.node.is_directory = false →
        Item.line true i
          = tabs i.level ++ i.name
              ++ (" [" ++ getFileType i.name ++ ", " ++ getFileSize i.node ++ "]") ++ "\n")
    ∧ (∀ level : Nat, (tabs level).data = List.replicate level '\t')
    ∧ getFolderStructure dirPath
          (.dir [("a.txt", .file (some 500)), ("sub", .dir [("b.py", .file (some 2048))])])
          0 (-1) showHidden true
        = "a.txt [Text File, 500 B]\nsub [Directory]\n\tb.py [Python, 2.00 KB]\n" := by
  refine ⟨getFolderStructure_root _ _ _ _ _, ?_, ?_, ?_, fun _ => rfl, ?_⟩
  · intro i
    simp [Item.line]
  · intro i h
    simp [Item.line, h]
  · intro i h
    simp [Item.line, h]
  · rw [getFolderStructure_root]
    cases showHidden <;> decide

/-- C8: with `maxDepth = -1` and `showHidden` set, the report is one line per
entry of the tree, in pre-order: every entry is listed, each directory's line
is followed at once by the lines of its whole subtree, and the entries of a
directory keep the iteration order.  When no file name holds a newline, the
report text has as many lines as the tree has entries. -/
theorem unbounded_preorder (dirPath : String) (entries : List (String × Node))
    (verbose : Bool) :
    getFolderStructure dirPath (.dir entries) 0 (-1) true verbose
        = render verbose (preorder [] entries)
    ∧ (∀ (anc : List String) (filename : String) (sub rest : List (String × Node)),
        preorder anc ((filename, .dir sub) :: rest)
          = ⟨anc, filename, .dir sub⟩ :: (preorder (anc ++ [filename]) sub ++ preorder anc rest))
    ∧ (∀ (anc : List String) (filename : String) (size : Option Nat)
        (rest : List (String × Node)),
        preorder anc ((filename, .file size) :: rest)
          = ⟨anc, filename, .file size⟩ :: preorder anc rest)
    ∧ ((∀ i ∈ preorder [] entries, '\n' ∉ i.name.data) →
        (textLines (getFolderStructure dirPath (.dir entries) 0 (-1) true verbose).data).length
          = (preorder [] entries).length) := by
  have hall : listing entries (-1) true = preorder [] entries := by
    unfold listing
    rw [List.filter_eq_self]
    intro i _
    simp [shown, withinDepth]
  refine ⟨?_, ?_, ?_, ?_⟩
  · rw [getFolderStructure_root, hall]
  · intro anc filename sub rest
    simp [preorder, Node.items]
  · intro anc filename size rest
    simp [preorder, Node.items]
  · intro hnames
    rw [getFolderStructure_root, hall, textLines_render verbose _ hnames, List.length_map]

/-- Witness for C8: the tree of the C2 witness has six entries, and its
unbounded report with hidden entries has six lines. -/
theorem unbounded_preorder_witness :
    (textLines
        (getFolderStructure "."
          (.dir [("a.txt", .file (some 500)), (".git", .dir [("config", .file (some 92))]),
            ("sub", .dir [("b.py", .file (some 2048)), ("deep", .dir [("c.md", .file none)])])])
          0 (-1) true false).data).length
      = (preorder []
          [("a.txt", .file (some 500)), (".git", .dir [("config", .file (some 92))]),
            ("sub", .dir [("b.py", .file (some 2048)),
              ("deep", .dir [("c.md", .file none)])])]).length :=
  (unbounded_preorder "."
      [("a.txt", .file (some 500)), (".git", .dir [("config", .file (some 92))]),
        ("sub", .dir [("b.py", .file (some 2048)), ("deep", .dir [("c.md", .file none)])])]
      false).2.2.2
    (by decide)

/-- C9 as stated fails: for the command line `lsd + *` the program exits with
code 1 and walks nothing, but the error stream holds only the line
`Unknown argument: *`; the usage text is on the output stream. -/
theorem usage_goes_to_stdout :
    main ⟨"/home/user", fun _ => .dir [], .linux, true⟩ ["lsd", "+", "*"]
        = { exitCode := 1, out := usage, err := "Unknown argument: *\n", walked := none,
            clipboard := none }
      ∧ ¬ (usage.data <:+: ("Unknown argument: *\n" : String).data) := by
  refine ⟨rfl, fun h => ?_⟩
  have hin : '[' ∈ usage.data := by decide
  have hout : '[' ∉ ("Unknown argument: *\n" : String).data := by decide
  exact hout (h.subset hin)

/-- C9 (amended): when the tokens before a bare token `t` have been processed
without `exit` (so no `h` among them), `t` is not the value of a `/`, and the
root path is set when `t` is reached, the parser exits with code 1, having
written `Unknown argument: t` to the error stream and the usage text to the
output stream; run from `main`, the program ends with exit code 1 and the
walker is never called. -/
theorem bare_token_with_root_set_exits (pre post : List String) (t : String)
    (cfg cfg' : Config) (io io' : Streams)
    (hd : danglingSlash pre = false)
    (hret : parseArguments pre cfg io = .returned cfg' io')
    (hset : cfg'.dirPath ≠ "") (hb : isBare t = true) :
    parseArguments (pre ++ t :: post) cfg io
        = .exited 1
            { out := io'.out ++ usage, err := io'.err ++ "Unknown argument: " ++ t ++ "\n" }
    ∧ ∀ (w : World) (prog : String), cfg = initialConfig w → io = { out := "", err := "" } →
        main w (prog :: (pre ++ t :: post))
          = { exitCode := 1, out := io'.out ++ usage,
              err := io'.err ++ "Unknown argument: " ++ t ++ "\n", walked := none,
              clipboard := none } := by
  have hp : parseArguments (pre ++ t :: post) cfg io
      = .exited 1
          { out := io'.out ++ usage, err := io'.err ++ "Unknown argument: " ++ t ++ "\n" } := by
    rw [parseArguments_append pre.length pre le_rfl cfg io cfg' io' (t :: post) hd hret]
    exact parseArguments_bare_exits t post cfg' io' hb hset
  refine ⟨hp, ?_⟩
  intro w prog hc hi
  subst hc hi
  simp only [main, List.drop_succ_cons, List.drop_zero, hp]

/-- Witness for C9 (amended): the tokens `+ / 2 *` after the initial
configuration of a run in `/home/user`. -/
theorem bare_token_with_root_set_exits_witness :
    main ⟨"/home/user", fun _ => .dir [], .linux, true⟩ ["lsd", "+", "/", "2", "*"]
      = { exitCode := 1, out := "" ++ usage, err := "" ++ "Unknown argument: " ++ "*" ++ "\n",
          walked := none, clipboard := none } :=
  (bare_token_with_root_set_exits ["+", "/", "2"] [] "*"
      (initialConfig ⟨"/home/user", fun _ => .dir [], .linux, true⟩)
      { dirPath := "/home/user", maxDepth := 2, showHidden := false, verbose := true,
        copyClipboard := false }
      { out := "", err := "" } { out := "", err := "" }
      (by decide) (by rfl) (by decide) (by decide)).2
    ⟨"/home/user", fun _ => .dir [], .linux, true⟩ "lsd" rfl rfl

/-- C10: when `std::stoi` throws on the token after `/` (no digits to read, or
a value outside the `int` range), the parser sets the depth to -1, writes its
diagnostic and goes on with the tokens that follow; a `/` as last token does
the same and the parser returns; both also right after a `/ n` with a valid
`n`.  Examples of values `std::stoi` rejects. -/
theorem invalid_depth_falls_back (value : String) (rest : List String) (cfg : Config)
    (io : Streams) (h : stoi value = none) :
    parseArguments ("/" :: value :: rest) cfg io
        = parseArguments rest { cfg with maxDepth := -1 }
            { io with err := io.err ++ invalidDepthMessage }
    ∧ parseArguments ["/"] cfg io
        = .returned { cfg with maxDepth := -1 } { io with err := io.err ++ invalidDepthMessage }
    ∧ (∀ (n : String) (k : Int), stoi n = some k →
        parseArguments ("/" :: n :: "/" :: value :: rest) cfg io
          = parseArguments rest { cfg with maxDepth := -1 }
              { io with err := io.err ++ invalidDepthMessage })
    ∧ (∀ (n : String) (k : Int), stoi n = some k →
        parseArguments ["/", n, "/"] cfg io
          = .returned { cfg with maxDepth := -1 }
              { io with err := io.err ++ invalidDepthMessage })
    ∧ stoi "abc" = none ∧ stoi "" = none ∧ stoi "-" = none
    ∧ stoi "2147483648" = none ∧ stoi "-2147483649" = none
    ∧ stoi "99999999999999999999" = none := by
  refine ⟨?_, ?_, ?_, ?_, by decide, by decide, by decide, by decide, by decide, by decide⟩
  · simp only [parseArguments, if_true, h]
  · simp only [parseArguments, if_true]
  · intro n k hn
    simp only [parseArguments, if_true, h, hn]
  · intro n k hn
    simp only [parseArguments, if_true, hn]

/-- Witness for C10: the tokens `/ abc +` after a depth of 3 had been set. -/
theorem invalid_depth_falls_back_witness :
    parseArguments ["/", "abc", "+"]
        { dirPath := "/home/user", maxDepth := 3, showHidden := false, verbose := false,
          copyClipboard := false }
        { out := "", err := "" }
      = .returned
          { dirPath := "/home/user", maxDepth := -1, showHidden := false, verbose := true,
            copyClipboard := false }
          { out := "", err := invalidDepthMessage } :=
  ((invalid_depth_falls_back "abc" ["+"]
      { dirPath := "/home/user", maxDepth := 3, showHidden := false, verbose := false,
        copyClipboard := false }
      { out := "", err := "" } (by decide)).1).trans (by rfl)

/-- C11: for every `n` in the `int` range the decimal text of `n` is read back
as `n`; and in a sequence of well-formed flags in which `/` with the decimal
text of `n` is the last depth specification (only `+`, `-`, `=` follow), the
parser returns the configuration that the other tokens alone produce, with the
depth set to `n`. -/
theorem depth_value_is_read (n : Int) (hlo : -2 ^ 31 ≤ n) (hhi : n ≤ 2 ^ 31 - 1)
    (pre post : List String) (cfg : Config) (io : Streams)
    (hpre : wellFormedFlags pre = true) (hpost : ∀ t ∈ post, isSimpleFlag t = true) :
    stoi (toString n) = some n
    ∧ ∃ (c : Config) (s : Streams),
        parseArguments (pre ++ post) cfg io = .returned c s
        ∧ parseArguments (pre ++ "/" :: toString n :: post) cfg io
            = .returned { c with maxDepth := n } s := by
  have hs := stoi_toString n hlo hhi
  obtain ⟨hd, cfg', err', hp, _⟩ := wellFormedFlags_returns pre.length pre le_rfl hpre cfg io
  refine ⟨hs,
    { cfg' with
      verbose := cfg'.verbose || decide ("+" ∈ post),
      showHidden := cfg'.showHidden || decide ("-" ∈ post),
      copyClipboard := cfg'.copyClipboard || decide ("=" ∈ post) },
    { out := io.out, err := err' }, ?_, ?_⟩
  · rw [parseArguments_append pre.length pre le_rfl cfg io _ _ post hd hp,
      parseArguments_simple_flags post hpost]
  · rw [parseArguments_append pre.length pre le_rfl cfg io _ _ _ hd hp]
    simp only [parseArguments, if_true, hs]
    rw [parseArguments_simple_flags post hpost]

/-- Witness for C11: the tokens `+ / 7 / 3 -` from the initial configuration
of a run in `/home/user` end with depth 3, verbose and show-hidden set. -/
theorem depth_value_is_read_witness :
    stoi (toString (3 : Int)) = some 3
    ∧ parseArguments ["+", "/", "7", "/", "3", "-"]
        { dirPath := "/home/user", maxDepth := -1, showHidden := false, verbose := false,
          copyClipboard := false }
        { out := "", err := "" }
      = .returned
          { dirPath := "/home/user", maxDepth := 3, showHidden := true, verbose := true,
            copyClipboard := false }
          { out := "", err := "" } := by
  obtain ⟨hs, c, s, h1, h2⟩ := depth_value_is_read 3 (by decide) (by decide)
    ["+", "/", "7"] ["-"]
    { dirPath := "/home/user", maxDepth := -1, showHidden := false, verbose := false,
      copyClipboard := false }
    { out := "", err := "" } (by decide) (by decide)
  refine ⟨hs, ?_⟩
  have e : parseArguments (["+", "/", "7"] ++ ["-"])
      { dirPath := "/home/user", maxDepth := -1, showHidden := false, verbose := false,
        copyClipboard := false }
      { out := "", err := "" }
      = .returned
          { dirPath := "/home/user", maxDepth := 7, showHidden := true, verbose := true,
            copyClipboard := false }
          { out := "", err := "" } := rfl
  rw [e] at h1
  injection h1 with hc hio
  subst hc hio
  exact h2

/-- C12: a node whose size query fails gets the size text `Unknown Size`; its
verbose line is the name with ` [<type>, Unknown Size]`; the walk goes on: the
report for a directory that holds such an entry is the report for the entries
before it, that line, and the report for the entries after it; and whatever
the sizes, the report is one line per listed entry. -/
theorem size_failure_degrades (dirPath name : String) (node : Node)
    (pre post : List (String × Node)) (level : Nat) (maxDepth : Int) (showHidden : Bool)
    (hfail : node.file_size = none) (hfile : node.is_directory = false)
    (hvis : (!showHidden && isHidden name) = false) :
    getFileSize node = "Unknown Size"
    ∧ getFolderStructure dirPath (.dir (pre ++ (name, node) :: post)) level maxDepth
          showHidden true
        = getFolderStructure dirPath (.dir pre) level maxDepth showHidden true
            ++ (tabs level ++ name ++ " [" ++ getFileType name ++ ", " ++ "Unknown Size" ++ "]"
                  ++ "\n")
            ++ getFolderStructure dirPath (.dir post) level maxDepth showHidden true
    ∧ (∀ (entries : List (String × Node)),
        getFolderStructure dirPath (.dir entries) 0 maxDepth showHidden true
          = concat ((listing entries maxDepth showHidden).map (Item.line true)))
    ∧ (∀ i : Item, i.node.file_size = none → i.node.is_directory = false →
        Item.line true i
          = tabs i.level ++ i.name ++ " [" ++ getFileType i.name ++ ", " ++ "Unknown Size"
              ++ "]" ++ "\n") := by
  have hsz := getFileSize_of_query_fails node hfail
  refine ⟨hsz, ?_, fun entries => getFolderStructure_root _ _ _ _ _, ?_⟩
  · simp only [getFolderStructure]
    rw [walkEntries_append]
    simp only [walkEntries, hvis, Bool.false_eq_true, if_false, hfile, Bool.false_and,
      entryLine, if_true, hsz, String.append_assoc, String.append_empty]
  · intro i h1 h2
    simp [Item.line, h2, getFileSize_of_query_fails _ h1, String.append_assoc]

/-- Witness for C12: a directory with `a.txt`, then `gone.log` whose size
cannot be read, then `b.py`. -/
theorem size_failure_degrades_witness :
    getFolderStructure "."
        (.dir [("a.txt", .file (some 500)), ("gone.log", .file none),
          ("b.py", .file (some 2048))])
        0 (-1) false true
      = "a.txt [Text File, 500 B]\ngone.log [Log File, Unknown Size]\nb.py [Python, 2.00 KB]\n" :=
  ((size_failure_degrades "." "gone.log" (.file none) [("a.txt", .file (some 500))]
      [("b.py", .file (some 2048))] 0 (-1) false rfl rfl (by decide)).2.1).trans (by decide)

/-- C13 (the code fails it): a root path that does not exist should give the
one line `Invalid directory path: ...` and exit code 0.  But `fs::exists` on
the root path is called outside any `try`: when the status query fails (a name
too long to exist, a parent that cannot be searched) the call throws, the
function returns no line and the program is aborted.  And `main` takes the
current directory as root, so for `lsd` started in a directory that has been
removed `fs::current_path()` throws before anything is printed and the program
is aborted; with `=` and no clipboard utility it is killed by `SIGPIPE`.  Only
when the status query succeeds is the diagnostic returned. -/
theorem invalid_root_aborts :
    getFolderStructureExc "/home/user/gone" .failed 0 (-1) false false = none
    ∧ mainExc
        { currentPath := none, status := fun _ => .resolved .missing, platform := .linux,
          pipe := .accepts }
        ["lsd"]
      = .aborted
    ∧ mainExc
        { currentPath := some "/home/user/locked/inner", status := fun _ => .failed,
          platform := .linux, pipe := .accepts }
        ["lsd"]
      = .aborted
    ∧ mainExc
        { currentPath := some "/home/user/gone", status := fun _ => .resolved .missing,
          platform := .linux, pipe := .broken }
        ["lsd", "="]
      = .killed
    ∧ getFolderStructureExc "/home/user/gone" (.resolved .missing) 0 (-1) false false
      = some "Invalid directory path: \"/home/user/gone\"\n" := by
  refine ⟨rfl, rfl, rfl, rfl, ?_⟩
  rw [getFolderStructureExc_resolved]
  decide

/-- C14: when every token before an `h` is a well-formed flag, the parser
reaches the `h`, writes the usage text to the output stream and exits with
code 0, whatever follows; run from `main`, the program ends with exit code 0,
its output is the usage text alone, and the walker is never called. -/
theorem help_exits_successfully (pre post : List String) (cfg : Config) (io : Streams)
    (hpre : wellFormedFlags pre = true) :
    (∃ err' : String,
        parseArguments (pre ++ "h" :: post) cfg io
          = .exited 0 { out := io.out ++ usage, err := err' })
    ∧ ∀ (w : World) (prog : String),
        (main w (prog :: (pre ++ "h" :: post))).exitCode = 0
        ∧ (main w (prog :: (pre ++ "h" :: post))).out = usage
        ∧ (main w (prog :: (pre ++ "h" :: post))).walked = none
        ∧ (main w (prog :: (pre ++ "h" :: post))).clipboard = none := by
  have key : ∀ (cfg : Config) (io : Streams), ∃ err' : String,
      parseArguments (pre ++ "h" :: post) cfg io
        = .exited 0 { out := io.out ++ usage, err := err' } := by
    intro cfg io
    obtain ⟨hd, cfg', err', hp, _⟩ := wellFormedFlags_returns pre.length pre le_rfl hpre cfg io
    refine ⟨err', ?_⟩
    rw [parseArguments_append pre.length pre le_rfl cfg io _ _ _ hd hp, parseArguments_help]
    rfl
  refine ⟨key cfg io, ?_⟩
  intro w prog
  obtain ⟨err', h⟩ := key (initialConfig w) { out := "", err := "" }
  simp only [main, List.drop_succ_cons, List.drop_zero, h]
  simp

/-- Witness for C14: `lsd + / 2 h docs` prints the usage text and exits with code 0. -/
theorem help_exits_successfully_witness :
    (main ⟨"/home/user", fun _ => .dir [], .linux, true⟩ ["lsd", "+", "/", "2", "h", "docs"]).exitCode
        = 0
    ∧ (main ⟨"/home/user", fun _ => .dir [], .linux, true⟩ ["lsd", "+", "/", "2", "h", "docs"]).out
        = usage :=
  have h := (help_exits_successfully ["+", "/", "2"] ["docs"]
    (initialConfig ⟨"/home/user", fun _ => .dir [], .linux, true⟩) { out := "", err := "" }
    (by decide)).2 ⟨"/home/user", fun _ => .dir [], .linux, true⟩ "lsd"
  ⟨h.1, h.2.1⟩

/-- C15 as stated fails: 1048575 bytes (one byte less than `1024^2`) are shown
as `1024.00 KB`, a number that is not below 1024. -/
theorem getFileSize_shows_1024 :
    (1048575 : Nat) < 1024 ^ 3
      ∧ getFileSize (.file (some 1048575)) = "1024.00 KB"
      ∧ ¬ ((1024 : ℚ) + (10 * 0 + 0 : ℚ) / 100 < 1024) := by
  refine ⟨by norm_num, by decide, by norm_num⟩

/-- C15 (amended): for a byte count `b < 1024^3` the number shown is at most
1024 in the unit the text names, and below 1024 whenever the exact quotient
`b / 1024^k` is below 1023.995; below 1024 bytes the number is `b` itself.
The unit is the smallest one in which the exact quotient is below 1024. -/
theorem getFileSize_number_at_most_1024 (b : Nat) (hb : b < 1024 ^ 3) :
    (b < 1024 → getFileSize (.file (some b)) = toString b ++ " B")
    ∧ (1024 ≤ b → b < 1024 ^ 2 →
        (b : ℚ) / 1024 < 1024
        ∧ ∃ ip d1 d2 : Nat, d1 < 10 ∧ d2 < 10
          ∧ getFileSize (.file (some b))
              = toString ip ++ "." ++ String.mk [Nat.digitChar d1, Nat.digitChar d2] ++ " KB"
          ∧ (ip : ℚ) + (10 * d1 + d2 : ℚ) / 100 ≤ 1024
          ∧ ((b : ℚ) / 1024 < 1023995 / 1000 → (ip : ℚ) + (10 * d1 + d2 : ℚ) / 100 < 1024))
    ∧ (1024 ^ 2 ≤ b →
        (b : ℚ) / 1024 ^ 2 < 1024
        ∧ ∃ ip d1 d2 : Nat, d1 < 10 ∧ d2 < 10
          ∧ getFileSize (.file (some b))
              = toString ip ++ "." ++ String.mk [Nat.digitChar d1, Nat.digitChar d2] ++ " MB"
          ∧ (ip : ℚ) + (10 * d1 + d2 : ℚ) / 100 ≤ 1024
          ∧ ((b : ℚ) / 1024 ^ 2 < 1023995 / 1000 →
              (ip : ℚ) + (10 * d1 + d2 : ℚ) / 100 < 1024)) := by
  have h53 : b < 2 ^ 53 := by
    have : (1024 : Nat) ^ 3 < 2 ^ 53 := by norm_num
    omega
  refine ⟨getFileSize_small b, ?_, ?_⟩
  · intro h1 h2
    refine ⟨?_, ?_⟩
    · rw [div_lt_iff₀ (by norm_num)]
      have : b < 1024 * 1024 := by omega
      exact_mod_cast this
    · obtain ⟨ip, d1, d2, hd1, hd2, he, hle, hlt⟩ :=
        fixed2_below_limit b 1024 (by decide) (by omega)
      refine ⟨ip, d1, d2, hd1, hd2, ?_, hle, by simpa using hlt⟩
      rw [getFileSize_KB b h1 h2, toDouble_exact b h53, he]
  · intro h1
    refine ⟨?_, ?_⟩
    · rw [div_lt_iff₀ (by norm_num)]
      have : b < 1024 * 1024 ^ 2 := by omega
      exact_mod_cast this
    · obtain ⟨ip, d1, d2, hd1, hd2, he, hle, hlt⟩ :=
        fixed2_below_limit b (1024 * 1024) (by decide) (by omega)
      refine ⟨ip, d1, d2, hd1, hd2, ?_, hle, ?_⟩
      · rw [getFileSize_MB b h1 hb, toDouble_exact b h53, he]
      · have e : ((1024 * 1024 : Nat) : ℚ) = 1024 ^ 2 := by norm_num
        rw [e] at hlt
        exact hlt

/-- Witness for C15 (amended), at 1048575 bytes. -/
theorem getFileSize_number_at_most_1024_witness :
    (1048575 : Nat) < 1024 ^ 3
      ∧ ∃ ip d1 d2 : Nat, d1 < 10 ∧ d2 < 10
          ∧ getFileSize (.file (some 1048575))
              = toString ip ++ "." ++ String.mk [Nat.digitChar d1, Nat.digitChar d2] ++ " KB"
          ∧ (ip : ℚ) + (10 * d1 + d2 : ℚ) / 100 ≤ 1024
          ∧ (((1048575 : Nat) : ℚ) / 1024 < 1023995 / 1000 →
              (ip : ℚ) + (10 * d1 + d2 : ℚ) / 100 < 1024) :=
  ⟨by norm_num,
   ((getFileSize_number_at_most_1024 1048575 (by norm_num)).2.1 (by norm_num) (by norm_num)).2⟩

/-- C16: for two sequences of `+`, `-`, `=` tokens with the same set of
tokens, the parser returns the same configuration and streams; the result
switches on exactly the flags whose token occurs and keeps depth and root
path; from the initial configuration of `main`, verbose, show-hidden and
clipboard are true exactly for the tokens present, the depth is -1 and the
root path is the current directory. -/
theorem flags_order_independent (ts1 ts2 : List String) (cfg : Config) (io : Streams)
    (h1 : ∀ t ∈ ts1, isSimpleFlag t = true) (h2 : ∀ t ∈ ts2, isSimpleFlag t = true)
    (hset : ∀ t, t ∈ ts1 ↔ t ∈ ts2) :
    parseArguments ts1 cfg io = parseArguments ts2 cfg io
    ∧ parseArguments ts1 cfg io
        = .returned
            { dirPath := cfg.dirPath, maxDepth := cfg.maxDepth,
              showHidden := cfg.showHidden || decide ("-" ∈ ts1),
              verbose := cfg.verbose || decide ("+" ∈ ts1),
              copyClipboard := cfg.copyClipboard || decide ("=" ∈ ts1) }
            io
    ∧ ∀ w : World,
        parseArguments ts1 (initialConfig w) io
          = .returned
              { dirPath := w.cwd, maxDepth := -1, showHidden := decide ("-" ∈ ts1),
                verbose := decide ("+" ∈ ts1), copyClipboard := decide ("=" ∈ ts1) }
              io := by
  refine ⟨?_, ?_, ?_⟩
  · rw [parseArguments_simple_flags ts1 h1, parseArguments_simple_flags ts2 h2]
    simp only [hset]
  · rw [parseArguments_simple_flags ts1 h1]
  · intro w
    rw [parseArguments_simple_flags ts1 h1]
    simp [initialConfig]

/-- Witness for C16: `+ = +` and `= + =` give the same configuration. -/
theorem flags_order_independent_witness :
    parseArguments ["+", "=", "+"]
        { dirPath := "/home/user", maxDepth := -1, showHidden := false, verbose := false,
          copyClipboard := false }
        { out := "", err := "" }
      = parseArguments ["=", "+", "="]
          { dirPath := "/home/user", maxDepth := -1, showHidden := false, verbose := false,
            copyClipboard := false }
          { out := "", err := "" } :=
  (flags_order_independent ["+", "=", "+"] ["=", "+", "="]
    { dirPath := "/home/user", maxDepth := -1, showHidden := false, verbose := false,
      copyClipboard := false }
    { out := "", err := "" } (by decide) (by decide)
    (by
      intro t
      simp only [List.mem_cons, List.mem_singleton, List.not_mem_nil, or_false]
      tauto)).1

/-- C17: the token after `/` is consumed as the depth value whatever it is:
the parser goes on after it with the depth set to what `std::stoi` reads, or
to -1 with a diagnostic.  So `/ h` neither prints the usage text nor exits and
leaves the depth at -1, `/ +` leaves verbose as it was and `/ =` leaves
clipboard as it was; `lsd / h` runs the walk on the current directory. -/
theorem slash_consumes_next_token (value : String) (rest : List String) (cfg : Config)
    (io : Streams) :
    parseArguments ("/" :: value :: rest) cfg io
        = parseArguments rest { cfg with maxDepth := (stoi value).getD (-1) }
            { io with
              err := if (stoi value).isSome then io.err else io.err ++ invalidDepthMessage }
    ∧ parseArguments ["/", "h"] cfg io
        = .returned { cfg with maxDepth := -1 } { io with err := io.err ++ invalidDepthMessage }
    ∧ parseArguments ["/", "+"] cfg io
        = .returned { cfg with maxDepth := -1 } { io with err := io.err ++ invalidDepthMessage }
    ∧ parseArguments ["/", "="] cfg io
        = .returned { cfg with maxDepth := -1 } { io with err := io.err ++ invalidDepthMessage }
    ∧ (∀ (w : World) (prog : String),
        (main w [prog, "/", "h"]).exitCode = 0
        ∧ (main w [prog, "/", "h"]).walked = some w.cwd
        ∧ (main w [prog, "/", "h"]).out
            = "Folder structure of: " ++ quoted w.cwd ++ "\n"
                ++ getFolderStructure w.cwd (w.resolve w.cwd) 0 (-1) false false) := by
  have hh : stoi "h" = none := by decide
  have hp : stoi "+" = none := by decide
  have he : stoi "=" = none := by decide
  refine ⟨?_, ?_, ?_, ?_, ?_⟩
  · simp only [parseArguments, if_true]
    cases stoi value <;> simp
  · simp only [parseArguments, if_true, hh]
  · simp only [parseArguments, if_true, hp]
  · simp only [parseArguments, if_true, he]
  · intro w prog
    simp [main, parseArguments, hh, initialConfig, String.append_assoc]

/-- C18: for every `maxDepth ≤ -2` the report of a level-0 call is the report
for `maxDepth = 0`, whatever the root resolves to; for a directory it is the
lines of the root's direct entries that pass the hidden-file rule, and no
subdirectory is expanded. -/
theorem negative_depth_is_zero (dirPath : String) (node : Node) (maxDepth : Int)
    (showHidden verbose : Bool) (h : maxDepth ≤ -2) :
    getFolderStructure dirPath node 0 maxDepth showHidden verbose
        = getFolderStructure dirPath node 0 0 showHidden verbose
    ∧ (∀ entries : List (String × Node), node = .dir entries →
        getFolderStructure dirPath node 0 maxDepth showHidden verbose
          = concat (((entries.filter (fun e => visibleName showHidden e.1)).map
              (fun e => (⟨[], e.1, e.2⟩ : Item))).map (Item.line verbose))) := by
  have hdir : ∀ entries : List (String × Node),
      getFolderStructure dirPath (.dir entries) 0 maxDepth showHidden verbose
        = getFolderStructure dirPath (.dir entries) 0 0 showHidden verbose := by
    intro entries
    rw [getFolderStructure_root, getFolderStructure_root, listing_of_le_neg_two _ _ h]
  refine ⟨?_, ?_⟩
  · cases node with
    | missing => rfl
    | file size => rfl
    | dir entries => exact hdir entries
  · intro entries he
    subst he
    rw [hdir, getFolderStructure_root, listing_depth_zero]
    rfl

/-- Witness for C18: with `maxDepth = -5` the directory `sub` is listed and not
expanded. -/
theorem negative_depth_is_zero_witness :
    getFolderStructure "."
        (.dir [("a.txt", .file (some 500)), ("sub", .dir [("b.py", .file (some 2048))])])
        0 (-5) false false
      = "a.txt\nsub\n" :=
  ((negative_depth_is_zero "."
      (.dir [("a.txt", .file (some 500)), ("sub", .dir [("b.py", .file (some 2048))])])
      (-5) false false (by decide)).1).trans (by decide)

/-- C19: for every `N ≥ 0` the lines of the report for `maxDepth = N` are a
subsequence, in the same order, of the lines for `maxDepth = N + 1`, and these
of the lines for `maxDepth = -1`; each report is the concatenation of its
lines.  When no file name holds a newline, the same holds for the lines of
the report texts. -/
theorem depth_monotone (dirPath : String) (entries : List (String × Node)) (N : Nat)
    (showHidden verbose : Bool) :
    (∀ md : Int,
        getFolderStructure dirPath (.dir entries) 0 md showHidden verbose
          = concat ((listing entries md showHidden).map (Item.line verbose)))
    ∧ ((listing entries (N : Int) showHidden).map (Item.line verbose)).Sublist
        ((listing entries ((N : Int) + 1) showHidden).map (Item.line verbose))
    ∧ ((listing entries ((N : Int) + 1) showHidden).map (Item.line verbose)).Sublist
        ((listing entries (-1) showHidden).map (Item.line verbose))
    ∧ ((∀ i ∈ preorder [] entries, '\n' ∉ i.name.data) →
        (textLines
            (getFolderStructure dirPath (.dir entries) 0 (N : Int) showHidden verbose).data).Sublist
          (textLines
            (getFolderStructure dirPath (.dir entries) 0 ((N : Int) + 1) showHidden
              verbose).data)
        ∧ (textLines
            (getFolderStructure dirPath (.dir entries) 0 ((N : Int) + 1) showHidden
              verbose).data).Sublist
          (textLines
            (getFolderStructure dirPath (.dir entries) 0 (-1) showHidden verbose).data)) := by
  have s1 : (listing entries (N : Int) showHidden).Sublist
      (listing entries ((N : Int) + 1) showHidden) :=
    listing_sublist entries _ _ showHidden (fun k hk => withinDepth_succ N k hk)
  have s2 : (listing entries ((N : Int) + 1) showHidden).Sublist
      (listing entries (-1) showHidden) :=
    listing_sublist entries _ _ showHidden (fun k _ => by simp [withinDepth])
  refine ⟨fun md => getFolderStructure_root _ _ _ _ _, s1.map _, s2.map _, ?_⟩
  intro hnames
  simp only [getFolderStructure_root]
  rw [textLines_render verbose _ (listing_names entries _ showHidden hnames),
    textLines_render verbose _ (listing_names entries _ showHidden hnames),
    textLines_render verbose _ (listing_names entries _ showHidden hnames)]
  exact ⟨s1.map _, s2.map _⟩

/-- Witness for C19: a tree three levels deep, at depths 0, 1 and unbounded. -/
theorem depth_monotone_witness :
    (textLines
        (getFolderStructure "."
          (.dir [("a.txt", .file (some 500)),
            ("sub", .dir [("b.py", .file (some 2048)), ("deep", .dir [("c.md", .file none)])])])
          0 ((0 : Nat) : Int) false true).data).Sublist
      (textLines
        (getFolderStructure "."
          (.dir [("a.txt", .file (some 500)),
            ("sub", .dir [("b.py", .file (some 2048)), ("deep", .dir [("c.md", .file none)])])])
          0 (((0 : Nat) : Int) + 1) false true).data) :=
  ((depth_monotone "."
      [("a.txt", .file (some 500)),
        ("sub", .dir [("b.py", .file (some 2048)), ("deep", .dir [("c.md", .file none)])])]
      0 false true).2.2.2 (by decide)).1

/-- C20: the verbose and the plain report list the same entries in the same
order; the plain line of an entry is its tabs and name, the verbose line is
the plain line followed by one annotation ` [...]` whose inner text holds no
bracket.  When no file name holds a newline, the two report texts have the
same number of lines and each plain line is the verbose line without its
annotation. -/
theorem verbose_only_appends (dirPath : String) (entries : List (String × Node))
    (maxDepth : Int) (showHidden : Bool) :
    getFolderStructure dirPath (.dir entries) 0 maxDepth showHidden false
        = concat ((listing entries maxDepth showHidden).map fun i =>
            tabs i.level ++ i.name ++ "\n")
    ∧ getFolderStructure dirPath (.dir entries) 0 maxDepth showHidden true
        = concat ((listing entries maxDepth showHidden).map fun i =>
            tabs i.level ++ i.name ++ i.annotation true ++ "\n")
    ∧ (∀ i : Item, ∃ inner : String, i.annotation true = " [" ++ inner ++ "]"
        ∧ '[' ∉ inner.data ∧ ']' ∉ inner.data ∧ '\n' ∉ inner.data)
    ∧ ((∀ i ∈ preorder [] entries, '\n' ∉ i.name.data) →
        (textLines
            (getFolderStructure dirPath (.dir entries) 0 maxDepth showHidden false).data).length
          = (textLines
              (getFolderStructure dirPath (.dir entries) 0 maxDepth showHidden true).data).length
        ∧ List.Forall₂
            (fun plain full => ∃ inner : String,
              full = plain ++ (" [" ++ inner ++ "]").data
                ∧ '[' ∉ inner.data ∧ ']' ∉ inner.data)
            (textLines
              (getFolderStructure dirPath (.dir entries) 0 maxDepth showHidden false).data)
            (textLines
              (getFolderStructure dirPath (.dir entries) 0 maxDepth showHidden true).data)) := by
  refine ⟨?_, ?_, Item.annotation_bracketed, ?_⟩
  · have hf : Item.line false = fun i => tabs i.level ++ i.name ++ "\n" := by
      funext i
      simp [Item.line]
    rw [getFolderStructure_root, render, hf]
  · have ht : Item.line true = fun i => tabs i.level ++ i.name ++ i.annotation true ++ "\n" := by
      funext i
      simp [Item.line, Item.annotation]
    rw [getFolderStructure_root, render, ht]
  · intro hnames
    have hn := listing_names entries maxDepth showHidden hnames
    simp only [getFolderStructure_root]
    rw [textLines_render false _ hn, textLines_render true _ hn]
    refine ⟨by simp, ?_⟩
    rw [List.forall₂_map_left_iff, List.forall₂_map_right_iff, List.forall₂_same]
    intro i _
    obtain ⟨inner, he, h1, h2, _⟩ := Item.annotation_bracketed i
    refine ⟨inner, ?_, h1, h2⟩
    rw [he]
    simp [Item.annotation]

/-- Witness for C20: the plain and the verbose report of a small tree have the
same number of lines. -/
theorem verbose_only_appends_witness :
    (textLines
        (getFolderStructure "."
          (.dir [("a.txt", .file (some 500)), ("sub", .dir [("b.py", .file (some 2048))])])
          0 (-1) false false).data).length
      = (textLines
          (getFolderStructure "."
            (.dir [("a.txt", .file (some 500)), ("sub", .dir [("b.py", .file (some 2048))])])
            0 (-1) false true).data).length :=
  ((verbose_only_appends "."
      [("a.txt", .file (some 500)), ("sub", .dir [("b.py", .file (some 2048))])]
      (-1) false).2.2.2 (by decide)).1

end Lsd
